import Mathlib

/-!
Verification of the HMAC-Project repository (an Express HMAC-authentication
service) against its natural-language specification.

The JavaScript source is shallowly embedded:
* JS strings are modelled as `List Char`; JS byte buffers as `List Nat`
  (each element `< 256`); 32-bit words as `Nat` reduced mod `2 ^ 32`.
* `crypto.createHmac("sha256", secret).update(data).digest("hex")` is modelled
  by a full executable HMAC-SHA-256 (FIPS 180-4 / FIPS 198-1) over `Nat`.
* `crypto.timingSafeEqual` is modelled by the XOR-accumulate scan it is
  documented to perform, instrumented with a step counter so that the
  constant-time property is statable.
* JSON values are modelled by the inductive `Json`; JS numbers are modelled as
  integers (IEEE-754 fractional values are outside the model).  `JSON.stringify`
  and `JSON.parse` are modelled by `stringify` and `jsonParse` below, and
  `parseInt` by `jsParseIntStr` (the JS `NaN` result is `Option.none`).
* `Date.now()` and the incoming request are explicit parameters.
-/

namespace JsModel

/-- Characters `{` and `}` used by the JSON printer. -/
def lbrace : Char := Char.ofNat 123

/-- Closing brace character. -/
def rbrace : Char := Char.ofNat 125

/-- Decimal digit character for `n < 10`. -/
def digitChar (n : Nat) : Char := Char.ofNat (48 + n)

/-- Is `c` a decimal digit? -/
def isDigitChar (c : Char) : Bool := 48 ≤ c.toNat && c.toNat ≤ 57

/-- Numeric value of a decimal digit character. -/
def digitVal (c : Char) : Nat := c.toNat - 48

/-- Lower-case hexadecimal digit character for `n < 16`. -/
def hexDigitChar (n : Nat) : Char :=
  if n < 10 then Char.ofNat (48 + n) else Char.ofNat (87 + n)

/-- Value of a hexadecimal digit character (upper or lower case), `none` if the
character is not a hex digit. -/
def hexCharVal (c : Char) : Option Nat :=
  if 48 ≤ c.toNat ∧ c.toNat ≤ 57 then some (c.toNat - 48)
  else if 97 ≤ c.toNat ∧ c.toNat ≤ 102 then some (c.toNat - 87)
  else if 65 ≤ c.toNat ∧ c.toNat ≤ 70 then some (c.toNat - 55)
  else none

/-- Decimal digits of `n`, least significant first, with explicit fuel
(structural recursion so that the kernel can evaluate it). -/
def natDigitsRevF : Nat → Nat → List Char
  | 0, _ => []
  | f + 1, n => if n < 10 then [digitChar n]
                else digitChar (n % 10) :: natDigitsRevF f (n / 10)

/-- Decimal representation of a natural number (JS `String(n)`). -/
def natRepr (n : Nat) : List Char := (natDigitsRevF (n + 1) n).reverse

/-- Decimal representation of an integer (JS template-literal conversion of an
integral number). -/
def intRepr (n : Int) : List Char :=
  if n < 0 then '-' :: natRepr n.natAbs else natRepr n.natAbs

/-- Greedily consume decimal digits, folding them onto an accumulator. -/
def parseDigitsAux : List Char → Nat → Nat × List Char
  | [], acc => (acc, [])
  | c :: r, acc =>
    if isDigitChar c then parseDigitsAux r (acc * 10 + digitVal c) else (acc, c :: r)

/-- Greedily consume hexadecimal digits, folding them onto an accumulator. -/
def parseHexDigitsAux : List Char → Nat → Nat × List Char
  | [], acc => (acc, [])
  | c :: r, acc =>
    match hexCharVal c with
    | some v => parseHexDigitsAux r (acc * 16 + v)
    | none => (acc, c :: r)

/-- Is `c` whitespace skipped by JS `parseInt`? -/
def isJsWs (c : Char) : Bool :=
  c = ' ' || c.toNat = 9 || c.toNat = 10 || c.toNat = 13 || c.toNat = 12 || c.toNat = 11

/-- Magnitude part of JS `parseInt` (radix unspecified): an optional `0x`/`0X`
prefix switches to base 16; at least one digit is required, and parsing stops at
the first character that is not a digit of the selected base. -/
def jsParseIntBody : List Char → Option Nat
  | c :: c2 :: r =>
    if c = '0' ∧ (c2 = 'x' ∨ c2 = 'X') then
      match hexCharVal (r.headD ' ') with
      | some _ => some (parseHexDigitsAux r 0).1
      | none => none
    else if isDigitChar c then some (parseDigitsAux (c2 :: r) (digitVal c)).1
    else none
  | [c] => if isDigitChar c then some (parseDigitsAux [] (digitVal c)).1 else none
  | [] => none

/-- JS `parseInt(s)` on a string: skip whitespace, optional sign, then the
magnitude; `none` models the JS result `NaN`. -/
def jsParseIntStr (s : List Char) : Option Int :=
  match s.dropWhile isJsWs with
  | [] => none
  | c :: r =>
    if c = '-' then (jsParseIntBody r).map (fun n => -(n : Int))
    else if c = '+' then (jsParseIntBody r).map (fun n => (n : Int))
    else (jsParseIntBody (c :: r)).map (fun n => (n : Int))

/-- JS `parseInt` applied to a possibly-`undefined` value: `parseInt(undefined)`
coerces to the string `"undefined"`, which yields `NaN`. -/
def jsParseIntOpt : Option (List Char) → Option Int
  | none => none
  | some s => jsParseIntStr s

/-- JS `String.prototype.split` with a single-character separator. -/
def splitOn (sep : Char) : List Char → List (List Char)
  | [] => [[]]
  | c :: r =>
    if c = sep then [] :: splitOn sep r
    else
      match splitOn sep r with
      | h :: t => (c :: h) :: t
      | [] => [[c]]

/-- JS `>` on a possibly-`NaN` left operand: any comparison with `NaN` is
false. -/
def jsGtNum (a : Option Int) (b : Int) : Bool :=
  match a with
  | none => false
  | some x => decide (x > b)

/-- JS falsiness of a possibly-`undefined` string (both `undefined` and the
empty string are falsy). -/
def jsFalsyOptStr : Option (List Char) → Bool
  | none => true
  | some [] => true
  | some (_ :: _) => false

end JsModel

namespace NodeCrypto

open JsModel

/-- Reduce modulo `2 ^ 32`. -/
def w32 (n : Nat) : Nat := n % 2 ^ 32

/-- Right rotation of a 32-bit word. -/
def rotr32 (n x : Nat) : Nat := w32 ((x >>> n) ||| (x <<< (32 - n)))

/-- SHA-256 `Ch` function (`¬x` is `x XOR 0xffffffff`). -/
def shaCh (x y z : Nat) : Nat := (x &&& y) ^^^ ((x ^^^ 0xffffffff) &&& z)

/-- SHA-256 `Maj` function. -/
def shaMaj (x y z : Nat) : Nat := (x &&& y) ^^^ (x &&& z) ^^^ (y &&& z)

/-- SHA-256 `Σ₀`. -/
def bsig0 (x : Nat) : Nat := rotr32 2 x ^^^ rotr32 13 x ^^^ rotr32 22 x

/-- SHA-256 `Σ₁`. -/
def bsig1 (x : Nat) : Nat := rotr32 6 x ^^^ rotr32 11 x ^^^ rotr32 25 x

/-- SHA-256 `σ₀`. -/
def ssig0 (x : Nat) : Nat := rotr32 7 x ^^^ rotr32 18 x ^^^ (x >>> 3)

/-- SHA-256 `σ₁`. -/
def ssig1 (x : Nat) : Nat := rotr32 17 x ^^^ rotr32 19 x ^^^ (x >>> 10)

/-- The 64 SHA-256 round constants. -/
def shaK : List Nat :=
  [1116352408, 1899447441, 3049323471, 3921009573, 961987163, 1508970993,
   2453635748, 2870763221, 3624381080, 310598401, 607225278, 1426881987,
   1925078388, 2162078206, 2614888103, 3248222580, 3835390401, 4022224774,
   264347078, 604807628, 770255983, 1249150122, 1555081692, 1996064986,
   2554220882, 2821834349, 2952996808, 3210313671, 3336571891, 3584528711,
   113926993, 338241895, 666307205, 773529912, 1294757372, 1396182291,
   1695183700, 1986661051, 2177026350, 2456956037, 2730485921, 2820302411,
   3259730800, 3345764771, 3516065817, 3600352804, 4094571909, 275423344,
   430227734, 506948616, 659060556, 883997877, 958139571, 1322822218,
   1537002063, 1747873779, 1955562222, 2024104815, 2227730452, 2361852424,
   2428436474, 2756734187, 3204031479, 3329325298]

/-- The eight-word SHA-256 working state. -/
structure Words8 where
  a : Nat
  b : Nat
  c : Nat
  d : Nat
  e : Nat
  f : Nat
  g : Nat
  h : Nat

/-- The SHA-256 initial hash value. -/
def shaH0 : Words8 :=
  ⟨1779033703, 3144134277, 1013904242, 2773480762,
   1359893119, 2600822924, 528734635, 1541459225⟩

/-- Big-endian bytes of a 32-bit word. -/
def wordToBytes (w : Nat) : List Nat :=
  [w / 2 ^ 24 % 256, w / 2 ^ 16 % 256, w / 2 ^ 8 % 256, w % 256]

/-- Big-endian `k`-byte representation of `n`. -/
def natToBeBytes : Nat → Nat → List Nat
  | 0, _ => []
  | k + 1, n => natToBeBytes k (n / 256) ++ [n % 256]

/-- SHA-256 message padding (FIPS 180-4 §5.1.1). -/
def shaPad (msg : List Nat) : List Nat :=
  let len := msg.length
  let zeros := (64 + 56 - (len + 1) % 64) % 64
  msg ++ 0x80 :: List.replicate zeros 0 ++ natToBeBytes 8 (len * 8)

/-- Split a byte list into 64-byte blocks (fuelled structural recursion). -/
def toBlocks : Nat → List Nat → List (List Nat)
  | 0, _ => []
  | _ + 1, [] => []
  | f + 1, l => l.take 64 :: toBlocks f (l.drop 64)

/-- Big-endian 32-bit words of a block. -/
def bytesToWords : List Nat → List Nat
  | b0 :: b1 :: b2 :: b3 :: rest => (((b0 * 256 + b1) * 256 + b2) * 256 + b3) :: bytesToWords rest
  | _ => []

/-- Extend the 16 message words to 64, keeping the list most-recent-first. -/
def extendW : Nat → List Nat → List Nat
  | 0, wrev => wrev
  | f + 1, wrev =>
    extendW f
      (w32 (ssig1 (wrev.getD 1 0) + wrev.getD 6 0 + ssig0 (wrev.getD 14 0) + wrev.getD 15 0)
        :: wrev)

/-- The 64-entry SHA-256 message schedule of a block. -/
def schedule (block : List Nat) : List Nat :=
  (extendW 48 (bytesToWords block).reverse).reverse

/-- One SHA-256 round. -/
def roundStep (s : Words8) (kw : Nat × Nat) : Words8 :=
  let t1 := w32 (s.h + bsig1 s.e + shaCh s.e s.f s.g + kw.1 + kw.2)
  let t2 := w32 (bsig0 s.a + shaMaj s.a s.b s.c)
  ⟨w32 (t1 + t2), s.a, s.b, s.c, w32 (s.d + t1), s.e, s.f, s.g⟩

/-- Compress one 64-byte block into the running state. -/
def compressBlock (st : Words8) (block : List Nat) : Words8 :=
  let s := (shaK.zip (schedule block)).foldl roundStep st
  ⟨w32 (st.a + s.a), w32 (st.b + s.b), w32 (st.c + s.c), w32 (st.d + s.d),
   w32 (st.e + s.e), w32 (st.f + s.f), w32 (st.g + s.g), w32 (st.h + s.h)⟩

/-- SHA-256 of a byte list. -/
def sha256 (msg : List Nat) : List Nat :=
  let padded := shaPad msg
  let st := (toBlocks (padded.length + 1) padded).foldl compressBlock shaH0
  wordToBytes st.a ++ wordToBytes st.b ++ wordToBytes st.c ++ wordToBytes st.d ++
    wordToBytes st.e ++ wordToBytes st.f ++ wordToBytes st.g ++ wordToBytes st.h

/-- HMAC-SHA-256 (FIPS 198-1) of a message under a key, both byte lists. -/
def hmacSha256 (key msg : List Nat) : List Nat :=
  let k0 := if 64 < key.length then sha256 key else key
  let kp := k0 ++ List.replicate (64 - k0.length) 0
  sha256 ((kp.map (fun b => b ^^^ 0x5c)) ++ sha256 ((kp.map (fun b => b ^^^ 0x36)) ++ msg))

/-- UTF-8 bytes of one character. -/
def utf8Char (c : Char) : List Nat :=
  let n := c.toNat
  if n < 0x80 then [n]
  else if n < 0x800 then [0xc0 ||| (n >>> 6), 0x80 ||| (n &&& 0x3f)]
  else if n < 0x10000 then
    [0xe0 ||| (n >>> 12), 0x80 ||| ((n >>> 6) &&& 0x3f), 0x80 ||| (n &&& 0x3f)]
  else
    [0xf0 ||| (n >>> 18), 0x80 ||| ((n >>> 12) &&& 0x3f), 0x80 ||| ((n >>> 6) &&& 0x3f),
     0x80 ||| (n &&& 0x3f)]

/-- UTF-8 encoding of a string (Node `Buffer.from(s, "utf8")`). -/
def utf8 (s : List Char) : List Nat := s.flatMap utf8Char

/-- Lower-case hex encoding of a byte list (Node `buf.toString("hex")`). -/
def hexEncode (bs : List Nat) : List Char :=
  bs.flatMap (fun b => [hexDigitChar (b / 16), hexDigitChar (b % 16)])

/-- Node `Buffer.from(s, "hex")`: decode two characters at a time, stopping at
the first invalid pair; a trailing odd character is dropped. -/
def hexDecodeNode : List Char → List Nat
  | c1 :: c2 :: rest =>
    match hexCharVal c1, hexCharVal c2 with
    | some h, some l => (h * 16 + l) :: hexDecodeNode rest
    | _, _ => []
  | _ => []

/-- The XOR-accumulate scan performed by `crypto.timingSafeEqual` on two
equal-length byte lists, instrumented with a step counter: the first component
is the OR of the byte-wise XORs, the second the number of byte comparisons
performed. -/
def ctScan (a b : List Nat) : Nat × Nat :=
  (a.zip b).foldl (fun acc p => (acc.1 ||| (p.1 ^^^ p.2), acc.2 + 1)) (0, 0)

/-- Model of `crypto.timingSafeEqual`: throws (`none`) when the buffer lengths differ,
otherwise compares every byte position. -/
def timingSafeEqual (a b : List Nat) : Option Bool :=
  if a.length = b.length then some ((ctScan a b).1 == 0) else none

end NodeCrypto

namespace JsModel

mutual
/-- JSON values (JS numbers are modelled as integers). -/
inductive Json where
  | null : Json
  | bool (b : Bool) : Json
  | num (n : Int) : Json
  | str (s : List Char) : Json
  | arr (items : JsonItems) : Json
  | obj (members : JsonMembers) : Json
deriving DecidableEq

/-- A list of JSON array elements. -/
inductive JsonItems where
  | nil : JsonItems
  | cons (hd : Json) (tl : JsonItems) : JsonItems
deriving DecidableEq

/-- A list of JSON object members in insertion order. -/
inductive JsonMembers where
  | nil : JsonMembers
  | cons (key : List Char) (val : Json) (tl : JsonMembers) : JsonMembers
deriving DecidableEq
end

/-- The escape `JSON.stringify` applies to one character of a string: `"`,
`\`, the five short control escapes, `\u00XX` for the remaining control
characters, and every other character verbatim. -/
def escChar (c : Char) : List Char :=
  if c = '"' then ['\\', '"']
  else if c = '\\' then ['\\', '\\']
  else if c.toNat = 8 then ['\\', 'b']
  else if c.toNat = 9 then ['\\', 't']
  else if c.toNat = 10 then ['\\', 'n']
  else if c.toNat = 12 then ['\\', 'f']
  else if c.toNat = 13 then ['\\', 'r']
  else if c.toNat < 32 then
    ['\\', 'u', '0', '0', hexDigitChar (c.toNat / 16), hexDigitChar (c.toNat % 16)]
  else [c]

/-- String-body escaping performed by `JSON.stringify`. -/
def escapeStr (s : List Char) : List Char := s.flatMap escChar

/-- The four characters of the literal `null`. -/
def nullLit : List Char := ['n', 'u', 'l', 'l']

/-- The four characters of the literal `true`. -/
def trueLit : List Char := ['t', 'r', 'u', 'e']

/-- The five characters of the literal `false`. -/
def falseLit : List Char := ['f', 'a', 'l', 's', 'e']

mutual
/-- Model of `JSON.stringify` (no spacing argument): the exact character stream V8
produces on the modelled value space. -/
def stringify : Json → List Char
  | .null => nullLit
  | .bool true => trueLit
  | .bool false => falseLit
  | .num n => intRepr n
  | .str s => '"' :: escapeStr s ++ ['"']
  | .arr .nil => ['[', ']']
  | .arr (.cons x xs) => '[' :: stringify x ++ stringifyItems xs ++ [']']
  | .obj .nil => [lbrace, rbrace]
  | .obj (.cons k v ms) =>
    lbrace :: ('"' :: escapeStr k ++ '"' :: ':' :: stringify v) ++ stringifyMembers ms
      ++ [rbrace]

/-- Remaining array elements, each preceded by a comma. -/
def stringifyItems : JsonItems → List Char
  | .nil => []
  | .cons x xs => ',' :: stringify x ++ stringifyItems xs

/-- Remaining object members, each preceded by a comma. -/
def stringifyMembers : JsonMembers → List Char
  | .nil => []
  | .cons k v ms => ',' :: ('"' :: escapeStr k ++ '"' :: ':' :: stringify v) ++ stringifyMembers ms
end

/-- Is `c` JSON whitespace? -/
def isJsonWs (c : Char) : Bool :=
  c = ' ' || c.toNat = 9 || c.toNat = 10 || c.toNat = 13

/-- Skip JSON whitespace. -/
def skipWs (s : List Char) : List Char := s.dropWhile isJsonWs

/-- Prepend a character to a string-parse result. -/
def consStr (c : Char) (o : Option (List Char × List Char)) : Option (List Char × List Char) :=
  o.map (fun p => (c :: p.1, p.2))

/-- The character denoted by a single-letter JSON escape, `none` if the letter
is not a recognised escape. -/
def escCharOf (e : Char) : Option Char :=
  if e = '"' then some '"'
  else if e = '\\' then some '\\'
  else if e = '/' then some '/'
  else if e = 'b' then some (Char.ofNat 8)
  else if e = 'f' then some (Char.ofNat 12)
  else if e = 'n' then some (Char.ofNat 10)
  else if e = 'r' then some (Char.ofNat 13)
  else if e = 't' then some (Char.ofNat 9)
  else none

/-- Decode one escape sequence (the part after the backslash), returning the
denoted character and the remaining input. -/
def escDecode : List Char → Option (Char × List Char)
  | [] => none
  | e :: r2 =>
    if e = 'u' then
      match r2 with
      | h1 :: h2 :: h3 :: h4 :: r3 =>
        match hexCharVal h1, hexCharVal h2, hexCharVal h3, hexCharVal h4 with
        | some v1, some v2, some v3, some v4 =>
          some (Char.ofNat (((v1 * 16 + v2) * 16 + v3) * 16 + v4), r3)
        | _, _, _, _ => none
      | _ => none
    else (escCharOf e).map (fun ch => (ch, r2))

/-- Fuelled worker for `parseStringBody`; every step consumes at least one
input character, so fuel `length + 1` always suffices. -/
def parseStringBodyF : Nat → List Char → Option (List Char × List Char)
  | 0, _ => none
  | _ + 1, [] => none
  | f + 1, c :: r =>
    if c = '"' then some ([], r)
    else if c = '\\' then
      match escDecode r with
      | some (ch, r2) => consStr ch (parseStringBodyF f r2)
      | none => none
    else if c.toNat < 32 then none
    else consStr c (parseStringBodyF f r)

/-- Parse the body of a JSON string literal (after the opening quote), per the
JSON grammar: the recognised escapes, and raw characters above `0x1f`. -/
def parseStringBody (r : List Char) : Option (List Char × List Char) :=
  parseStringBodyF (r.length + 1) r

/-- Parse a JSON natural-number literal: `0` alone, or a nonzero digit followed
by digits. -/
def parseNatLit : List Char → Option (Nat × List Char)
  | [] => none
  | c :: r =>
    if isDigitChar c then
      if c = '0' then some (0, r) else some (parseDigitsAux r (digitVal c))
    else none

/-- Parse a JSON number literal (integral values only in this model). -/
def parseNumLit : List Char → Option (Json × List Char)
  | [] => none
  | c :: r =>
    if c = '-' then (parseNatLit r).map (fun p => (.num (-(p.1 : Int)), p.2))
    else (parseNatLit (c :: r)).map (fun p => (.num (p.1 : Int), p.2))

mutual
/-- Recursive-descent JSON value parser, fuelled so that it is structurally
recursive and kernel-evaluable. -/
def parseValue : Nat → List Char → Option (Json × List Char)
  | 0, _ => none
  | _ + 1, [] => none
  | f + 1, c :: r =>
    if c = 'n' then
      if r.take 3 = ['u', 'l', 'l'] then some (.null, r.drop 3) else none
    else if c = 't' then
      if r.take 3 = ['r', 'u', 'e'] then some (.bool true, r.drop 3) else none
    else if c = 'f' then
      if r.take 4 = ['a', 'l', 's', 'e'] then some (.bool false, r.drop 4) else none
    else if c = '"' then (parseStringBody r).map (fun p => (.str p.1, p.2))
    else if c = '[' then
      match skipWs r with
      | [] => none
      | c2 :: r2 =>
        if c2 = ']' then some (.arr .nil, r2)
        else (parseItems f (c2 :: r2)).map (fun p => (.arr p.1, p.2))
    else if c = lbrace then
      match skipWs r with
      | [] => none
      | c2 :: r2 =>
        if c2 = rbrace then some (.obj .nil, r2)
        else (parseMembers f (c2 :: r2)).map (fun p => (.obj p.1, p.2))
    else parseNumLit (c :: r)

/-- Parse one or more comma-separated array elements and the closing bracket. -/
def parseItems : Nat → List Char → Option (JsonItems × List Char)
  | 0, _ => none
  | f + 1, input =>
    match parseValue f (skipWs input) with
    | none => none
    | some (v, r) =>
      match skipWs r with
      | [] => none
      | c2 :: r2 =>
        if c2 = ',' then (parseItems f r2).map (fun p => (.cons v p.1, p.2))
        else if c2 = ']' then some (.cons v .nil, r2)
        else none

/-- Parse one or more comma-separated object members and the closing brace. -/
def parseMembers : Nat → List Char → Option (JsonMembers × List Char)
  | 0, _ => none
  | f + 1, input =>
    match skipWs input with
    | [] => none
    | c0 :: r =>
      if c0 = '"' then
        match parseStringBody r with
        | none => none
        | some (k, r2) =>
          match skipWs r2 with
          | [] => none
          | c3 :: r3 =>
            if c3 = ':' then
              match parseValue f (skipWs r3) with
              | none => none
              | some (v, r4) =>
                match skipWs r4 with
                | [] => none
                | c5 :: r5 =>
                  if c5 = ',' then (parseMembers f r5).map (fun p => (.cons k v p.1, p.2))
                  else if c5 = rbrace then some (.cons k v .nil, r5)
                  else none
            else none
      else none
end

/-- Model of `JSON.parse`: parse one value, allowing surrounding whitespace; `none`
models a thrown `SyntaxError`. -/
def jsonParse (s : List Char) : Option Json :=
  match parseValue (s.length + 1) (skipWs s) with
  | some (v, r) => if skipWs r = [] then some v else none
  | none => none

/-- JS truthiness of a JSON value (`null`, `false`, `0` and `""` are falsy;
`NaN` is outside the modelled value space). -/
def jsTruthy : Json → Bool
  | .null => false
  | .bool b => b
  | .num n => n != 0
  | .str s => !s.isEmpty
  | .arr _ => true
  | .obj _ => true

/-- JS `a || b` on a possibly-`undefined` JSON value. -/
def jsOrElse (a : Option Json) (b : Json) : Json :=
  match a with
  | none => b
  | some j => if jsTruthy j then j else b


/-- Fold the value of a digit string onto an accumulator. -/
def foldVal (acc : Nat) (ds : List Char) : Nat :=
  ds.foldl (fun a c => a * 10 + digitVal c) acc

/-- Does the string start with a decimal digit? -/
def headIsDigit : List Char → Bool
  | [] => false
  | c :: _ => isDigitChar c

mutual
/-- Parser fuel sufficient for a value. -/
def jsonFuel : Json → Nat
  | .null => 1
  | .bool _ => 1
  | .num _ => 1
  | .str _ => 1
  | .arr xs => itemsFuel xs
  | .obj ms => membersFuel ms

/-- Parser fuel sufficient for a list of array elements. -/
def itemsFuel : JsonItems → Nat
  | .nil => 1
  | .cons x xs => 1 + jsonFuel x + itemsFuel xs

/-- Parser fuel sufficient for a list of object members. -/
def membersFuel : JsonMembers → Nat
  | .nil => 1
  | .cons _ v ms => 1 + jsonFuel v + membersFuel ms
end

/-- The first character of a serialized value: it exists, is not whitespace,
and is not `]`. -/
def headOk : List Char → Prop
  | [] => False
  | c :: _ => isJsonWs c = false ∧ c ≠ ']'

end JsModel

namespace constants

/-- The constant `constants.SECURITY.MAX_TOKEN_AGE`: `5 * 60 * 1000` milliseconds. -/
def MAX_TOKEN_AGE : Int := 5 * 60 * 1000

end constants

namespace SimpleHMAC

open JsModel NodeCrypto

/-- The argument of `SimpleHMAC.create`: either a JS string or another
JSON-serializable value. -/
inductive JsMsg where
  | str (s : List Char) : JsMsg
  | val (j : Json) : JsMsg

/-- The `typeof message === "string" ? message : JSON.stringify(message)`
conversion inside `create`. -/
def msgData : JsMsg → List Char
  | .str s => s
  | .val j => stringify j

/-- Model of `SimpleHMAC.create`: HMAC-SHA-256 of the message data under the secret,
hex-encoded.  The secret is an explicit parameter of the embedding (the class
stores it in the constructor). -/
def create (secret : List Char) (message : JsMsg) : List Char :=
  hexEncode (hmacSha256 (utf8 secret) (utf8 (msgData message)))

/-- Model of `SimpleHMAC.verify`: recompute the digest and compare with
`crypto.timingSafeEqual` on the hex-decoded buffers; a thrown error (length
mismatch) is caught and turned into `false`. -/
def verify (secret : List Char) (message : JsMsg) (receivedHmac : List Char) : Bool :=
  let calculatedHmac := create secret message
  match timingSafeEqual (hexDecodeNode calculatedHmac) (hexDecodeNode receivedHmac) with
  | some b => b
  | none => false

/-- The string `JSON.stringify({ message: m, timestamp: t })` where `t` may be `NaN`
(serialized as `null`). -/
def dataToSignStr (m : Json) (t : Option Int) : List Char :=
  lbrace :: ('"' :: "message".toList ++ '"' :: ':' :: stringify m)
    ++ ',' :: ('"' :: "timestamp".toList ++ '"' :: ':' ::
      (match t with | some v => intRepr v | none => "null".toList))
    ++ [rbrace]

/-- The record returned by `createWithTimestamp`. -/
structure TokenResult where
  hmac : List Char
  timestamp : Int
  data : Json
  fullToken : List Char

/-- Model of `SimpleHMAC.createWithTimestamp` with `Date.now()` passed explicitly. -/
def createWithTimestamp (secret : List Char) (message : Json) (nowMs : Int) : TokenResult :=
  let hmacStr := create secret (.str (dataToSignStr message (some nowMs)))
  { hmac := hmacStr
    timestamp := nowMs
    data := message
    fullToken := hmacStr ++ ':' :: intRepr nowMs ++ ':' :: stringify message }

/-- The record returned by `verifyWithTimestamp`; absent JS fields are `none`. -/
structure VerifyResult where
  isValid : Bool
  reason : List Char
  data : Option Json := none
  age : Option Int := none
  maxAge : Option Int := none
deriving DecidableEq

/-- Model of `JSON.parse` applied to the possibly-`undefined` third part of the token;
`Except.error` models the thrown `SyntaxError` (the carried text models the
V8 message only abstractly). -/
def jsonParseThrow : Option (List Char) → Except (List Char) Json
  | none => .error "Unexpected token".toList
  | some s =>
    match jsonParse s with
    | some v => .ok v
    | none => .error "Unexpected token".toList

/-- Model of `SimpleHMAC.verifyWithTimestamp` with `Date.now()` passed explicitly. -/
def verifyWithTimestamp (secret : List Char) (fullToken : List Char) (nowMs : Int) :
    VerifyResult :=
  let parts := splitOn ':' fullToken
  let receivedHmac := parts.headD []
  let timestamp := jsParseIntOpt parts[1]?
  match jsonParseThrow parts[2]? with
  | .error m => { isValid := false, reason := "Invalid token format: ".toList ++ m }
  | .ok message =>
    let tokenAge := timestamp.map (fun t => nowMs - t)
    let maxAge := constants.MAX_TOKEN_AGE
    if jsGtNum tokenAge maxAge then
      { isValid := false, reason := "Token expired".toList, age := tokenAge,
        maxAge := some maxAge }
    else
      let originalData := dataToSignStr message timestamp
      let isValid := verify secret (.str originalData) receivedHmac
      { isValid := isValid
        reason := if isValid then "Valid token".toList else "Invalid HMAC".toList
        data := if isValid then some message else none
        age := tokenAge }

end SimpleHMAC

namespace security

open JsModel

/-- Model of `security.createStringToSign`: the template literal
`${timestamp}.${method.toUpperCase()}.${path}.${JSON.stringify(body || {})}`. -/
def createStringToSign (method path : List Char) (body : Option Json)
    (timestamp : List Char) : List Char :=
  timestamp ++ '.' :: method.map Char.toUpper ++ '.' :: path ++ '.' ::
    stringify (jsOrElse body (.obj .nil))

end security

open JsModel in
/-- The incoming Express request, restricted to the fields the middleware
reads; the two authentication headers may be absent. -/
structure Req where
  method : List Char
  path : List Char
  body : Option JsModel.Json
  tsHeader : Option (List Char)
  sigHeader : Option (List Char)

/-- The observable outcome of the `hmacAuth` middleware: the three 401
rejections, the 500 catch-all (`authError`), or calling `next()` (`ok`). -/
inductive AuthOutcome where
  | missingHeaders : AuthOutcome
  | expired (timeDiff : Option Int) : AuthOutcome
  | invalidSignature : AuthOutcome
  | authError : AuthOutcome
  | ok : AuthOutcome
deriving DecidableEq

/-- Is `t` a valid ECMAScript time value?  `new Date(t).toISOString()` throws a
`RangeError` exactly when `|t|` exceeds `8,640,000,000,000,000` ms (or `t` is
`NaN`, handled separately). -/
def dateRangeOk (t : Int) : Bool := decide (|t| ≤ 8640000000000000)

open JsModel SimpleHMAC security in
/-- The `hmacAuth` middleware with the server secret and `Date.now()` passed
explicitly.  The only modelled operation that throws is the expired branch's
`new Date(...).toISOString()` on an out-of-range time value, which lands in
the `catch` branch (`AuthOutcome.authError`). -/
def hmacAuth (secret : List Char) (req : Req) (nowMs : Int) : AuthOutcome :=
  if jsFalsyOptStr req.tsHeader || jsFalsyOptStr req.sigHeader then .missingHeaders
  else
    let timestamp := req.tsHeader.getD []
    let signature := req.sigHeader.getD []
    let requestTime := jsParseIntOpt req.tsHeader
    let timeDiff := requestTime.map (fun t => |nowMs - t|)
    if jsGtNum timeDiff constants.MAX_TOKEN_AGE then
      -- The 401 body evaluates `new Date(requestTime).toISOString()` and
      -- `new Date(now).toISOString()`; an out-of-range time value makes
      -- `toISOString` throw, which the surrounding `catch` turns into the
      -- 500 response.  `requestTime` is non-`NaN` here, since a `NaN`
      -- `timeDiff` never passes the `>` comparison above.
      if dateRangeOk (requestTime.getD 0) && dateRangeOk nowMs then .expired timeDiff
      else .authError
    else
      let stringToSign := createStringToSign req.method req.path req.body timestamp
      if verify secret (.str stringToSign) signature then .ok else .invalidSignature

/-- A concrete secret used by the concrete instances below. -/
def cexSecret : List Char := "test-secret".toList

/-- The object `{"a": 1}`, whose serialization contains a colon. -/
def cexMsgC1 : JsModel.Json := .obj (.cons ['a'] (.num 1) .nil)

/-- A token whose timestamp part is not parseable as an integer. -/
def cexTokenC3 : List Char := "deadbeef:xyz:42".toList

/-- A request with a non-numeric timestamp header and a short signature. -/
def reqC2 : Req :=
  { method := "GET".toList, path := "/data".toList, body := none,
    tsHeader := some "abc".toList, sigHeader := some "00".toList }

/-- A request timestamped far in the past. -/
def reqC7 : Req :=
  { method := "GET".toList, path := "/data".toList, body := none,
    tsHeader := some ['0'], sigHeader := some "ff".toList }

/-- A request whose timestamp parses to one more than the largest ECMAScript
time value (`8.64e15 + 1`, still below `2 ^ 53`, so JS `parseInt` is exact). -/
def reqC7big : Req :=
  { method := "GET".toList, path := "/data".toList, body := none,
    tsHeader := some "8640000000000001".toList, sigHeader := some "ff".toList }

/-- The string-to-sign as the specification words it: only an absent or `null`
body is replaced by the empty mapping.  Stated for comparison with the
source-derived `security.createStringToSign`. -/
def specStringToSign (method path : List Char) (body : Option JsModel.Json)
    (timestamp : List Char) : List Char :=
  timestamp ++ '.' :: method.map Char.toUpper ++ '.' :: path ++ '.' ::
    JsModel.stringify
      (match body with
       | none => .obj .nil
       | some j => if j = JsModel.Json.null then .obj .nil else j)

/-- Bodies on which the specification's description of the default is
accurate: absent, `null`, or truthy. -/
def bodyOkForSpec : Option JsModel.Json → Bool
  | none => true
  | some j => JsModel.jsTruthy j || decide (j = JsModel.Json.null)

/-! ### Basic lemmas about the hex codec, the digest, and the comparisons -/

namespace NodeCrypto

open JsModel

theorem hexCharVal_hexDigitChar : ∀ n, n < 16 → hexCharVal (hexDigitChar n) = some n := by
  decide

theorem hexDigitChar_ne_colon : ∀ n, n < 16 → hexDigitChar n ≠ ':' := by decide

theorem hexEncode_length (bs : List Nat) : (hexEncode bs).length = 2 * bs.length := by
  induction bs with
  | nil => simp [hexEncode]
  | cons b bs ih => simp [hexEncode] at ih ⊢; omega

theorem hexEncode_noColon (bs : List Nat) (h : ∀ b ∈ bs, b < 256) : ':' ∉ hexEncode bs := by
  induction bs with
  | nil => simp [hexEncode]
  | cons b bs ih =>
    have hb : b < 256 := h b (by simp)
    have h1 : b / 16 < 16 := by omega
    have h2 : b % 16 < 16 := Nat.mod_lt _ (by norm_num)
    simp only [hexEncode, List.flatMap_cons, List.mem_append, List.mem_cons, List.not_mem_nil]
    intro hc
    rcases hc with hc | hc
    · rcases hc with hc | hc | hc
      · exact hexDigitChar_ne_colon _ h1 hc.symm
      · exact hexDigitChar_ne_colon _ h2 hc.symm
      · exact hc
    · exact ih (fun x hx => h x (by simp [hx])) hc

theorem hexDecodeNode_hexEncode_append (bs : List Nat) (rest : List Char)
    (h : ∀ b ∈ bs, b < 256) :
    hexDecodeNode (hexEncode bs ++ rest) = bs ++ hexDecodeNode rest := by
  induction bs with
  | nil => simp [hexEncode]
  | cons b bs ih =>
    have hb : b < 256 := h b (by simp)
    have h1 : b / 16 < 16 := by omega
    have h2 : b % 16 < 16 := Nat.mod_lt _ (by norm_num)
    have hv : (b / 16) * 16 + b % 16 = b := by omega
    simp only [hexEncode, List.flatMap_cons, List.append_assoc, List.cons_append,
      List.nil_append, hexDecodeNode, hexCharVal_hexDigitChar _ h1, hexCharVal_hexDigitChar _ h2]
    rw [hv]
    exact congrArg (b :: ·) (ih (fun x hx => h x (by simp [hx])))

theorem hexDecodeNode_hexEncode (bs : List Nat) (h : ∀ b ∈ bs, b < 256) :
    hexDecodeNode (hexEncode bs) = bs := by
  have := hexDecodeNode_hexEncode_append bs [] h
  simpa [hexDecodeNode] using this

theorem wordToBytes_lt (w : Nat) : ∀ b ∈ wordToBytes w, b < 256 := by
  intro b hb
  simp [wordToBytes] at hb
  rcases hb with rfl | rfl | rfl | rfl <;> exact Nat.mod_lt _ (by norm_num)

theorem wordToBytes_length (w : Nat) : (wordToBytes w).length = 4 := by simp [wordToBytes]

theorem sha256_lt (m : List Nat) : ∀ b ∈ sha256 m, b < 256 := by
  intro b hb
  simp only [sha256, List.mem_append] at hb
  rcases hb with ((((((h | h) | h) | h) | h) | h) | h) | h <;> exact wordToBytes_lt _ _ h

theorem sha256_length (m : List Nat) : (sha256 m).length = 32 := by
  simp [sha256, wordToBytes]

theorem hmacSha256_lt (key m : List Nat) : ∀ b ∈ hmacSha256 key m, b < 256 :=
  sha256_lt _

theorem hmacSha256_length (key m : List Nat) : (hmacSha256 key m).length = 32 :=
  sha256_length _

theorem nat_or_eq_zero (a b : Nat) : a ||| b = 0 ↔ a = 0 ∧ b = 0 := by
  constructor
  · intro h
    constructor <;> apply Nat.zero_of_testBit_eq_false <;> intro i <;>
      · have h2 := congrArg (fun x => Nat.testBit x i) h
        simp only [Nat.testBit_or, Nat.zero_testBit, Bool.or_eq_false_iff] at h2
        first
        | exact h2.1
        | exact h2.2
  · rintro ⟨rfl, rfl⟩
    simp

theorem ctScan_fst_acc (l : List (Nat × Nat)) (acc s : Nat) :
    (l.foldl (fun acc p => (acc.1 ||| (p.1 ^^^ p.2), acc.2 + 1)) (acc, s)).1 = 0 ↔
      acc = 0 ∧ ∀ p ∈ l, p.1 = p.2 := by
  induction l generalizing acc s with
  | nil => simp
  | cons p l ih =>
    simp only [List.foldl_cons, ih, List.mem_cons, nat_or_eq_zero, Nat.xor_eq_zero]
    constructor
    · rintro ⟨⟨h0, hp⟩, hall⟩
      exact ⟨h0, by rintro q (rfl | hq); exact hp; exact hall q hq⟩
    · rintro ⟨h0, hall⟩
      exact ⟨⟨h0, hall p (by simp)⟩, fun q hq => hall q (by simp [hq])⟩

theorem zip_pairs_eq_iff (a b : List Nat) (h : a.length = b.length) :
    (∀ p ∈ a.zip b, p.1 = p.2) ↔ a = b := by
  induction a generalizing b with
  | nil =>
    cases b with
    | nil => simp
    | cons y ys => simp at h
  | cons x xs ih =>
    cases b with
    | nil => simp at h
    | cons y ys =>
      have h2 : xs.length = ys.length := by simpa using h
      constructor
      · intro hall
        have hxy : x = y := hall (x, y) (by simp)
        have hrest : xs = ys := (ih ys h2).mp (fun p hp => hall p (by simp [hp]))
        simp [hxy, hrest]
      · intro heq
        obtain ⟨rfl, rfl⟩ : x = y ∧ xs = ys := by simpa using heq
        intro p hp
        simp only [List.zip_cons_cons, List.mem_cons] at hp
        rcases hp with rfl | hp
        · rfl
        · exact (ih xs rfl).mpr rfl p hp

theorem ctScan_fst_eq_zero_iff (a b : List Nat) (h : a.length = b.length) :
    (ctScan a b).1 = 0 ↔ a = b := by
  rw [ctScan, ctScan_fst_acc]
  simp only [true_and]
  exact zip_pairs_eq_iff a b h

theorem ctScan_snd (a b : List Nat) : (ctScan a b).2 = min a.length b.length := by
  have aux : ∀ (l : List (Nat × Nat)) (acc s : Nat),
      (l.foldl (fun acc p => (acc.1 ||| (p.1 ^^^ p.2), acc.2 + 1)) (acc, s)).2 = s + l.length := by
    intro l
    induction l with
    | nil => simp
    | cons p l ih => intro acc s; simp [ih]; omega
  rw [ctScan, aux, List.length_zip]
  omega

end NodeCrypto

namespace SimpleHMAC

open JsModel NodeCrypto

theorem hexDecode_create (secret : List Char) (m : JsMsg) :
    hexDecodeNode (create secret m) = hmacSha256 (utf8 secret) (utf8 (msgData m)) :=
  hexDecodeNode_hexEncode _ (hmacSha256_lt _ _)

theorem hexDecode_create_length (secret : List Char) (m : JsMsg) :
    (hexDecodeNode (create secret m)).length = 32 := by
  rw [hexDecode_create, hmacSha256_length]

theorem create_noColon (secret : List Char) (m : JsMsg) : ':' ∉ create secret m :=
  hexEncode_noColon _ (hmacSha256_lt _ _)

theorem create_length (secret : List Char) (m : JsMsg) : (create secret m).length = 64 := by
  rw [create, hexEncode_length, hmacSha256_length]

/-- A freshly created digest always verifies (the two decoded buffers are the
same list, so the length guard passes and the XOR scan accumulates zero). -/
theorem verify_create (secret : List Char) (m : JsMsg) :
    verify secret m (create secret m) = true := by
  rw [verify, timingSafeEqual, if_pos rfl]
  simp [(ctScan_fst_eq_zero_iff _ _ rfl).mpr rfl]

/-- A candidate whose Node hex decoding differs from the digest bytes is
rejected: a length mismatch makes `timingSafeEqual` throw (caught, `false`) and
a content mismatch makes the XOR scan nonzero. -/
theorem verify_eq_false_of_decode_ne (secret : List Char) (m : JsMsg) (cand : List Char)
    (h : hexDecodeNode cand ≠ hexDecodeNode (create secret m)) :
    verify secret m cand = false := by
  rw [verify, timingSafeEqual]
  by_cases hl : (hexDecodeNode (create secret m)).length = (hexDecodeNode cand).length
  · rw [if_pos hl]
    have hne : (ctScan (hexDecodeNode (create secret m)) (hexDecodeNode cand)).1 ≠ 0 :=
      fun h0 => h ((ctScan_fst_eq_zero_iff _ _ hl).mp h0).symm
    simpa using hne
  · rw [if_neg hl]

end SimpleHMAC

namespace JsModel

theorem splitOn_ne_nil (sep : Char) (l : List Char) : splitOn sep l ≠ [] := by
  cases l with
  | nil => simp [splitOn]
  | cons c r =>
    rw [splitOn]
    split
    · simp
    · split <;> simp

theorem splitOn_noSep (sep : Char) (l : List Char) (h : sep ∉ l) : splitOn sep l = [l] := by
  induction l with
  | nil => rfl
  | cons c r ih =>
    have hc : c ≠ sep := fun hc => h (by simp [hc])
    rw [splitOn, if_neg hc, ih (fun hr => h (by simp [hr]))]

theorem splitOn_append (sep : Char) (a b : List Char) (h : sep ∉ a) :
    splitOn sep (a ++ sep :: b) = a :: splitOn sep b := by
  induction a with
  | nil => simp [splitOn]
  | cons c r ih =>
    have hc : c ≠ sep := fun hc => h (by simp [hc])
    rw [List.cons_append, splitOn, if_neg hc, ih (fun hr => h (by simp [hr]))]

/-- Splitting `a:b:c` where `a` and `b` are separator-free. -/
theorem splitOn_three (sep : Char) (a b c : List Char) (ha : sep ∉ a) (hb : sep ∉ b) :
    splitOn sep (a ++ sep :: (b ++ sep :: c)) = a :: b :: splitOn sep c := by
  rw [splitOn_append sep a _ ha, splitOn_append sep b c hb]

/-! ### Decimal printing and parsing -/

theorem isDigitChar_digitChar : ∀ n, n < 10 → isDigitChar (digitChar n) = true := by decide

theorem digitVal_digitChar : ∀ n, n < 10 → digitVal (digitChar n) = n := by decide

theorem digitChar_ne_zero : ∀ n, 1 ≤ n → n < 10 → digitChar n ≠ '0' := by decide

theorem natDigitsRevF_fuel (f : Nat) : ∀ g n, n < f → n < g →
    natDigitsRevF f n = natDigitsRevF g n := by
  induction f with
  | zero => intro g n hf; omega
  | succ f ih =>
    intro g n hf hg
    cases g with
    | zero => omega
    | succ g =>
      rw [natDigitsRevF, natDigitsRevF]
      by_cases h10 : n < 10
      · rw [if_pos h10, if_pos h10]
      · rw [if_neg h10, if_neg h10]
        have hlt : n / 10 < n := Nat.div_lt_self (by omega) (by omega)
        rw [ih g (n / 10) (by omega) (by omega)]

theorem natRepr_lt10 (n : Nat) (h : n < 10) : natRepr n = [digitChar n] := by
  rw [natRepr, natDigitsRevF, if_pos h]
  rfl

theorem natRepr_snoc (n : Nat) (h : 10 ≤ n) :
    natRepr n = natRepr (n / 10) ++ [digitChar (n % 10)] := by
  have hlt : n / 10 < n := Nat.div_lt_self (by omega) (by omega)
  rw [natRepr, natDigitsRevF, if_neg (by omega), natRepr,
    natDigitsRevF_fuel n (n / 10 + 1) (n / 10) (by omega) (by omega)]
  simp

theorem natRepr_all_digits (n : Nat) : ∀ c ∈ natRepr n, isDigitChar c = true := by
  induction n using Nat.strong_induction_on with
  | _ n ih =>
    by_cases h : n < 10
    · rw [natRepr_lt10 n h]
      intro c hc
      simp at hc
      subst hc
      exact isDigitChar_digitChar n h
    · rw [natRepr_snoc n (by omega)]
      intro c hc
      rcases List.mem_append.mp hc with hc | hc
      · exact ih (n / 10) (Nat.div_lt_self (by omega) (by omega)) c hc
      · simp at hc
        subst hc
        exact isDigitChar_digitChar _ (Nat.mod_lt _ (by omega))

theorem natRepr_head_nonzero (n : Nat) (h : 0 < n) :
    ∃ c cs, natRepr n = c :: cs ∧ isDigitChar c = true ∧ c ≠ '0' := by
  induction n using Nat.strong_induction_on with
  | _ n ih =>
    by_cases h10 : n < 10
    · exact ⟨digitChar n, [], natRepr_lt10 n h10, isDigitChar_digitChar n h10,
        digitChar_ne_zero n (by omega) h10⟩
    · obtain ⟨c, cs, hrepr, hdig, hne⟩ :=
        ih (n / 10) (Nat.div_lt_self (by omega) (by omega))
          (Nat.div_pos (by omega) (by omega))
      exact ⟨c, cs ++ [digitChar (n % 10)], by rw [natRepr_snoc n (by omega), hrepr]; rfl,
        hdig, hne⟩


theorem foldVal_append_digit (acc : Nat) (xs : List Char) (c : Char) :
    foldVal acc (xs ++ [c]) = (foldVal acc xs) * 10 + digitVal c := by
  simp [foldVal, List.foldl_append]

theorem foldVal_natRepr (n : Nat) : ∀ acc, foldVal acc (natRepr n) =
    acc * 10 ^ (natRepr n).length + n := by
  induction n using Nat.strong_induction_on with
  | _ n ih =>
    intro acc
    by_cases h : n < 10
    · rw [natRepr_lt10 n h]
      simp [foldVal, digitVal_digitChar n h]
    · have hlt : n / 10 < n := Nat.div_lt_self (by omega) (by omega)
      rw [natRepr_snoc n (by omega), foldVal_append_digit, ih (n / 10) hlt acc,
        digitVal_digitChar _ (Nat.mod_lt _ (by omega))]
      have hm : 10 * (n / 10) + n % 10 = n := Nat.div_add_mod n 10
      have hlen : (natRepr (n / 10) ++ [digitChar (n % 10)]).length =
          (natRepr (n / 10)).length + 1 := by simp
      rw [hlen]
      calc (acc * 10 ^ (natRepr (n / 10)).length + n / 10) * 10 + n % 10
          = acc * (10 ^ (natRepr (n / 10)).length * 10) + (10 * (n / 10) + n % 10) := by ring
        _ = acc * 10 ^ ((natRepr (n / 10)).length + 1) + n := by rw [hm, pow_succ]


theorem char_ne_of_toNat_ne (c d : Char) (h : c.toNat ≠ d.toNat) : c ≠ d :=
  fun heq => h (by rw [heq])

theorem digit_bounds (c : Char) (h : isDigitChar c = true) : 48 ≤ c.toNat ∧ c.toNat ≤ 57 := by
  simpa [isDigitChar] using h

theorem digit_ne_minus (c : Char) (h : isDigitChar c = true) : c ≠ '-' := by
  have hb := digit_bounds c h
  exact char_ne_of_toNat_ne c '-' (by have : ('-').toNat = 45 := rfl; omega)

theorem digit_ne_plus (c : Char) (h : isDigitChar c = true) : c ≠ '+' := by
  have hb := digit_bounds c h
  exact char_ne_of_toNat_ne c '+' (by have : ('+').toNat = 43 := rfl; omega)

theorem digit_ne_colon (c : Char) (h : isDigitChar c = true) : c ≠ ':' := by
  have hb := digit_bounds c h
  exact char_ne_of_toNat_ne c ':' (by have : (':').toNat = 58 := rfl; omega)

theorem digit_not_jsWs (c : Char) (h : isDigitChar c = true) : isJsWs c = false := by
  have hb := digit_bounds c h
  have hsp : c ≠ ' ' := char_ne_of_toNat_ne c ' ' (by have : (' ').toNat = 32 := rfl; omega)
  simp [isJsWs, hsp]
  omega

theorem parseDigitsAux_spec (ds : List Char) : ∀ acc (rest : List Char),
    (∀ c ∈ ds, isDigitChar c = true) → headIsDigit rest = false →
    parseDigitsAux (ds ++ rest) acc = (foldVal acc ds, rest) := by
  induction ds with
  | nil =>
    intro acc rest _ hr
    cases rest with
    | nil => rfl
    | cons c r =>
      rw [headIsDigit] at hr
      simp [parseDigitsAux, hr, foldVal]
  | cons c ds ih =>
    intro acc rest hd hr
    have hc := hd c (by simp)
    rw [List.cons_append, parseDigitsAux, if_pos hc, ih _ _ (fun x hx => hd x (by simp [hx])) hr]
    rfl

theorem natRepr_ne_nil (m : Nat) : natRepr m ≠ [] := by
  by_cases h : m < 10
  · rw [natRepr_lt10 m h]
    simp
  · rw [natRepr_snoc m (by omega)]
    simp

theorem foldVal_zero_natRepr (m : Nat) : foldVal 0 (natRepr m) = m := by
  rw [foldVal_natRepr m 0]
  simp

theorem parseNatLit_natRepr (m : Nat) (rest : List Char) (hr : headIsDigit rest = false) :
    parseNatLit (natRepr m ++ rest) = some (m, rest) := by
  by_cases hm : m = 0
  · subst hm
    have h0 : natRepr 0 = ['0'] := by
      rw [natRepr_lt10 0 (by omega)]
      rfl
    rw [h0, List.cons_append, parseNatLit, if_pos (by decide), if_pos rfl]
    cases rest with
    | nil => rfl
    | cons c r => rfl
  · obtain ⟨c, cs, hrepr, hdig, hne⟩ := natRepr_head_nonzero m (by omega)
    have hall : ∀ x ∈ cs, isDigitChar x = true := fun x hx =>
      natRepr_all_digits m x (by rw [hrepr]; simp [hx])
    rw [hrepr, List.cons_append, parseNatLit, if_pos hdig, if_neg hne,
      parseDigitsAux_spec cs _ rest hall hr]
    have hv : foldVal (digitVal c) cs = m := by
      have h1 : foldVal 0 (natRepr m) = m := foldVal_zero_natRepr m
      rw [hrepr] at h1
      simpa [foldVal] using h1
    rw [hv]

theorem parseNumLit_intRepr (n : Int) (rest : List Char) (hr : headIsDigit rest = false) :
    parseNumLit (intRepr n ++ rest) = some (.num n, rest) := by
  by_cases hneg : n < 0
  · rw [intRepr, if_pos hneg, List.cons_append, parseNumLit, if_pos rfl,
      parseNatLit_natRepr n.natAbs rest hr]
    have hval : -((n.natAbs : Nat) : Int) = n := by omega
    simp [hval]
    rw [abs_of_neg hneg]
    ring
  · rw [intRepr, if_neg hneg]
    cases hrep : natRepr n.natAbs with
    | nil => exact absurd hrep (natRepr_ne_nil _)
    | cons c cs =>
      have hdig : isDigitChar c = true := natRepr_all_digits _ c (by rw [hrep]; simp)
      rw [List.cons_append, parseNumLit, if_neg (digit_ne_minus c hdig), ← List.cons_append,
        ← hrep, parseNatLit_natRepr n.natAbs rest hr]
      have hval : ((n.natAbs : Nat) : Int) = n := by omega
      simp [hval]

theorem jsParseIntBody_natRepr (m : Nat) : jsParseIntBody (natRepr m) = some m := by
  cases hrep : natRepr m with
  | nil => exact absurd hrep (natRepr_ne_nil _)
  | cons c cs =>
    have hdig : isDigitChar c = true := natRepr_all_digits _ c (by rw [hrep]; simp)
    have hv : foldVal (digitVal c) cs = m := by
      have h1 : foldVal 0 (natRepr m) = m := foldVal_zero_natRepr m
      rw [hrep] at h1
      simpa [foldVal] using h1
    cases cs with
    | nil =>
      rw [jsParseIntBody, if_pos hdig]
      simp only [parseDigitsAux]
      rw [show foldVal (digitVal c) [] = digitVal c from rfl] at hv
      rw [hv]
    | cons c2 cs2 =>
      have hne : c ≠ '0' := by
        by_cases hm : m = 0
        · subst hm
          rw [natRepr_lt10 0 (by omega)] at hrep
          exact absurd hrep (by simp [digitChar])
        · obtain ⟨c', cs', hrepr', _, hne'⟩ := natRepr_head_nonzero m (by omega)
          rw [hrepr'] at hrep
          injection hrep with h1 _
          rw [h1] at hne'
          exact hne'
      rw [jsParseIntBody, if_neg (by rintro ⟨h1, _⟩; exact hne h1), if_pos hdig]
      have hall : ∀ x ∈ c2 :: cs2, isDigitChar x = true := fun x hx =>
        natRepr_all_digits m x (by rw [hrep]; simp [hx])
      have := parseDigitsAux_spec (c2 :: cs2) (digitVal c) [] hall rfl
      rw [List.append_nil] at this
      rw [this, hv]

theorem jsParseIntStr_cons (c : Char) (r : List Char) (hw : isJsWs c = false) :
    jsParseIntStr (c :: r) =
      (if c = '-' then (jsParseIntBody r).map (fun n => -(n : Int))
       else if c = '+' then (jsParseIntBody r).map (fun n => (n : Int))
       else (jsParseIntBody (c :: r)).map (fun n => (n : Int))) := by
  rw [jsParseIntStr, List.dropWhile_cons_of_neg (by simp [hw])]

theorem jsParseIntStr_intRepr (n : Int) : jsParseIntStr (intRepr n) = some n := by
  by_cases hneg : n < 0
  · have hrw : intRepr n = '-' :: natRepr n.natAbs := by rw [intRepr, if_pos hneg]
    rw [hrw, jsParseIntStr_cons '-' _ (by decide), if_pos rfl, jsParseIntBody_natRepr]
    have hval : -((n.natAbs : Nat) : Int) = n := by omega
    simp [hval]
    rw [abs_of_neg hneg]
    ring
  · have hrw : intRepr n = natRepr n.natAbs := by rw [intRepr, if_neg hneg]
    cases hrep : natRepr n.natAbs with
    | nil => exact absurd hrep (natRepr_ne_nil _)
    | cons c cs =>
      have hdig : isDigitChar c = true := natRepr_all_digits _ c (by rw [hrep]; simp)
      rw [hrw, hrep, jsParseIntStr_cons c cs (digit_not_jsWs c hdig),
        if_neg (digit_ne_minus c hdig), if_neg (digit_ne_plus c hdig), ← hrep,
        jsParseIntBody_natRepr]
      have hval : ((n.natAbs : Nat) : Int) = n := by omega
      simp [hval]

theorem natRepr_noColon (m : Nat) : ':' ∉ natRepr m := fun h =>
  absurd rfl (digit_ne_colon ':' (natRepr_all_digits m ':' h))

theorem intRepr_noColon (n : Int) : ':' ∉ intRepr n := by
  rw [intRepr]
  split
  · intro h
    rcases List.mem_cons.mp h with h1 | h1
    · exact absurd h1.symm (by decide)
    · exact natRepr_noColon _ h1
  · exact natRepr_noColon _


theorem hexCharVal_zero_char : hexCharVal '0' = some 0 := by decide

theorem escapeStr_len (s : List Char) : s.length ≤ (escapeStr s).length := by
  induction s with
  | nil => simp [escapeStr]
  | cons c s ih =>
    have h : escapeStr (c :: s) = escChar c ++ escapeStr s := by simp [escapeStr]
    have hlen : 1 ≤ (escChar c).length := by
      rw [escChar]
      split
      · simp
      split
      · simp
      split
      · simp
      split
      · simp
      split
      · simp
      split
      · simp
      split
      · simp
      split
      · simp
      · simp
    rw [h, List.length_append, List.length_cons]
    omega

theorem parseStringBodyF_escape (s : List Char) : ∀ f rest, s.length < f →
    parseStringBodyF f (escapeStr s ++ '"' :: rest) = some (s, rest) := by
  induction s with
  | nil =>
    intro f rest hf
    cases f with
    | zero => omega
    | succ f => rw [show escapeStr [] = [] from rfl, List.nil_append, parseStringBodyF, if_pos rfl]
  | cons c s ih =>
    intro f rest hf
    cases f with
    | zero => omega
    | succ f =>
    have hf2 : s.length < f := by simp at hf; omega
    have hexp : escapeStr (c :: s) = escChar c ++ escapeStr s := by simp [escapeStr]
    rw [hexp, List.append_assoc]
    by_cases h1 : c = '"'
    · subst h1
      rw [escChar, if_pos rfl, List.cons_append, List.cons_append, List.nil_append,
        parseStringBodyF, if_neg (by decide), if_pos rfl]
      simp [escDecode, escCharOf, consStr, ih f rest hf2]
    by_cases h2 : c = '\\'
    · subst h2
      rw [escChar, if_neg (by decide), if_pos rfl, List.cons_append, List.cons_append,
        List.nil_append, parseStringBodyF, if_neg (by decide), if_pos rfl]
      simp [escDecode, escCharOf, consStr, ih f rest hf2]
    by_cases h3 : c.toNat = 8
    · rw [escChar, if_neg h1, if_neg h2, if_pos h3, List.cons_append, List.cons_append,
        List.nil_append, parseStringBodyF, if_neg (by decide), if_pos rfl]
      have hc : c = Char.ofNat 8 := by rw [← Char.ofNat_toNat c, h3]
      simp [escDecode, escCharOf, consStr, ih f rest hf2, hc]
    by_cases h4 : c.toNat = 9
    · rw [escChar, if_neg h1, if_neg h2, if_neg h3, if_pos h4, List.cons_append, List.cons_append,
        List.nil_append, parseStringBodyF, if_neg (by decide), if_pos rfl]
      have hc : c = Char.ofNat 9 := by rw [← Char.ofNat_toNat c, h4]
      simp [escDecode, escCharOf, consStr, ih f rest hf2, hc]
    by_cases h5 : c.toNat = 10
    · rw [escChar, if_neg h1, if_neg h2, if_neg h3, if_neg h4, if_pos h5, List.cons_append,
        List.cons_append, List.nil_append, parseStringBodyF, if_neg (by decide), if_pos rfl]
      have hc : c = Char.ofNat 10 := by rw [← Char.ofNat_toNat c, h5]
      simp [escDecode, escCharOf, consStr, ih f rest hf2, hc]
    by_cases h6 : c.toNat = 12
    · rw [escChar, if_neg h1, if_neg h2, if_neg h3, if_neg h4, if_neg h5, if_pos h6,
        List.cons_append, List.cons_append, List.nil_append, parseStringBodyF,
        if_neg (by decide), if_pos rfl]
      have hc : c = Char.ofNat 12 := by rw [← Char.ofNat_toNat c, h6]
      simp [escDecode, escCharOf, consStr, ih f rest hf2, hc]
    by_cases h7 : c.toNat = 13
    · rw [escChar, if_neg h1, if_neg h2, if_neg h3, if_neg h4, if_neg h5, if_neg h6, if_pos h7,
        List.cons_append, List.cons_append, List.nil_append, parseStringBodyF,
        if_neg (by decide), if_pos rfl]
      have hc : c = Char.ofNat 13 := by rw [← Char.ofNat_toNat c, h7]
      simp [escDecode, escCharOf, consStr, ih f rest hf2, hc]
    by_cases h8 : c.toNat < 32
    · rw [escChar, if_neg h1, if_neg h2, if_neg h3, if_neg h4, if_neg h5, if_neg h6, if_neg h7,
        if_pos h8]
      have hhi : c.toNat / 16 < 16 := by omega
      have hlo : c.toNat % 16 < 16 := Nat.mod_lt _ (by norm_num)
      have hval : ((0 * 16 + 0) * 16 + c.toNat / 16) * 16 + c.toNat % 16 = c.toNat := by omega
      rw [List.cons_append, List.cons_append, List.cons_append, List.cons_append,
        List.cons_append, List.cons_append, List.nil_append, parseStringBodyF,
        if_neg (by decide), if_pos rfl]
      simp [escDecode, hexCharVal_zero_char, NodeCrypto.hexCharVal_hexDigitChar _ hhi,
        NodeCrypto.hexCharVal_hexDigitChar _ hlo, consStr, ih f rest hf2]
      rw [show c.toNat / 16 * 16 + c.toNat % 16 = c.toNat by omega, Char.ofNat_toNat]
    · rw [escChar, if_neg h1, if_neg h2, if_neg h3, if_neg h4, if_neg h5, if_neg h6, if_neg h7,
        if_neg h8, List.cons_append, List.nil_append, parseStringBodyF, if_neg h1, if_neg h2,
        if_neg h8, ih f rest hf2]
      rfl

theorem parseStringBody_escape (s rest : List Char) :
    parseStringBody (escapeStr s ++ '"' :: rest) = some (s, rest) := by
  rw [parseStringBody]
  apply parseStringBodyF_escape
  have h1 := escapeStr_len s
  simp only [List.length_append, List.length_cons]
  omega


theorem itemsFuel_pos (xs : JsonItems) : 1 ≤ itemsFuel xs := by
  cases xs <;> simp [itemsFuel] <;> omega

theorem membersFuel_pos (ms : JsonMembers) : 1 ≤ membersFuel ms := by
  cases ms <;> simp [membersFuel] <;> omega

theorem jsonFuel_pos (v : Json) : 1 ≤ jsonFuel v := by
  cases v with
  | arr xs => exact itemsFuel_pos xs
  | obj ms => exact membersFuel_pos ms
  | null => decide
  | bool b => rw [jsonFuel]
  | num n => rw [jsonFuel]
  | str s => rw [jsonFuel]

theorem digit_not_jsonWs (c : Char) (h : isDigitChar c = true) : isJsonWs c = false := by
  have hb := digit_bounds c h
  have hsp : c ≠ ' ' := char_ne_of_toNat_ne c ' ' (by have : (' ').toNat = 32 := rfl; omega)
  simp [isJsonWs, hsp]
  omega

theorem digit_ne_rbrk (c : Char) (h : isDigitChar c = true) : c ≠ ']' := by
  have hb := digit_bounds c h
  exact char_ne_of_toNat_ne c ']' (by have : (']').toNat = 93 := rfl; omega)

/-- The keyword-letter disequalities the `parseValue` dispatch needs for a
character that can start a number literal. -/
theorem numStart_facts (c : Char) (h : isDigitChar c = true ∨ c = '-') :
    c ≠ 'n' ∧ c ≠ 't' ∧ c ≠ 'f' ∧ c ≠ '"' ∧ c ≠ '[' ∧ c ≠ lbrace := by
  rcases h with h | h
  · have hb := digit_bounds c h
    refine ⟨char_ne_of_toNat_ne c 'n' ?_, char_ne_of_toNat_ne c 't' ?_,
      char_ne_of_toNat_ne c 'f' ?_, char_ne_of_toNat_ne c '"' ?_,
      char_ne_of_toNat_ne c '[' ?_, char_ne_of_toNat_ne c lbrace ?_⟩
    · have : ('n').toNat = 110 := rfl
      omega
    · have : ('t').toNat = 116 := rfl
      omega
    · have : ('f').toNat = 102 := rfl
      omega
    · have : ('"').toNat = 34 := rfl
      omega
    · have : ('[').toNat = 91 := rfl
      omega
    · have : lbrace.toNat = 123 := rfl
      omega
  · subst h
    refine ⟨by decide, by decide, by decide, by decide, by decide, by decide⟩


theorem intRepr_head (n : Int) :
    ∃ c cs, intRepr n = c :: cs ∧ (isDigitChar c = true ∨ c = '-') := by
  by_cases hneg : n < 0
  · exact ⟨'-', natRepr n.natAbs, by rw [intRepr, if_pos hneg], Or.inr rfl⟩
  · cases hrep : natRepr n.natAbs with
    | nil => exact absurd hrep (natRepr_ne_nil _)
    | cons c cs =>
      exact ⟨c, cs, by rw [intRepr, if_neg hneg, hrep],
        Or.inl (natRepr_all_digits _ c (by rw [hrep]; simp))⟩

theorem stringify_headOk (v : Json) : headOk (stringify v) := by
  cases v with
  | null => exact ⟨by decide, by decide⟩
  | bool b => cases b <;> exact ⟨by decide, by decide⟩
  | num n =>
    obtain ⟨c, cs, hrep, hc⟩ := intRepr_head n
    have hrw : stringify (.num n) = c :: cs := by rw [stringify, hrep]
    rw [hrw]
    rcases hc with hd | hd
    · exact ⟨digit_not_jsonWs c hd, digit_ne_rbrk c hd⟩
    · subst hd
      exact ⟨by decide, by decide⟩
  | str s =>
    rw [stringify]
    exact ⟨by decide, by decide⟩
  | arr xs =>
    cases xs with
    | nil => exact ⟨by decide, by decide⟩
    | cons x xs =>
      rw [stringify]
      exact ⟨by decide, by decide⟩
  | obj ms =>
    cases ms with
    | nil => exact ⟨by decide, by decide⟩
    | cons k v ms =>
      rw [stringify]
      exact ⟨by decide, by decide⟩

theorem skipWs_of_headOk (l rest : List Char) (h : headOk l) :
    skipWs (l ++ rest) = l ++ rest := by
  cases l with
  | nil => exact absurd h (by simp [headOk])
  | cons c cs =>
    rw [headOk] at h
    rw [List.cons_append, skipWs, List.dropWhile_cons_of_neg (by simp [h.1])]

theorem skipWs_cons_of_not_ws (c : Char) (r : List Char) (h : isJsonWs c = false) :
    skipWs (c :: r) = c :: r := by
  rw [skipWs, List.dropWhile_cons_of_neg (by simp [h])]

theorem parse_stringify_all : ∀ f : Nat,
    (∀ (v : Json) (rest : List Char), jsonFuel v ≤ f → headIsDigit rest = false →
      parseValue f (stringify v ++ rest) = some (v, rest)) ∧
    (∀ (x : Json) (xs : JsonItems) (rest : List Char), jsonFuel x + itemsFuel xs ≤ f →
      parseItems f (stringify x ++ (stringifyItems xs ++ ']' :: rest)) =
        some (.cons x xs, rest)) ∧
    (∀ (k : List Char) (v : Json) (ms : JsonMembers) (rest : List Char),
      jsonFuel v + membersFuel ms ≤ f →
      parseMembers f ('"' :: (escapeStr k ++ '"' :: ':' :: (stringify v ++
        (stringifyMembers ms ++ rbrace :: rest)))) = some (.cons k v ms, rest)) := by
  intro f
  induction f with
  | zero =>
    refine ⟨?_, ?_, ?_⟩
    · intro v rest hf _
      have := jsonFuel_pos v
      omega
    · intro x xs rest hf
      have h1 := jsonFuel_pos x
      have h2 := itemsFuel_pos xs
      omega
    · intro k v ms rest hf
      have h1 := jsonFuel_pos v
      have h2 := membersFuel_pos ms
      omega
  | succ f ih =>
    obtain ⟨ih1, ih2, ih3⟩ := ih
    refine ⟨?_, ?_, ?_⟩
    · intro v rest hfv hrest
      cases v with
      | null => simp [stringify, nullLit, parseValue]
      | bool b => cases b <;> simp [stringify, nullLit, trueLit, falseLit, parseValue]
      | num n =>
        obtain ⟨c, cs, hrep, hstart⟩ := intRepr_head n
        have hfacts := numStart_facts c hstart
        rw [show stringify (.num n) ++ rest = c :: (cs ++ rest) by rw [stringify, hrep]; rfl,
          parseValue, if_neg hfacts.1, if_neg hfacts.2.1, if_neg hfacts.2.2.1,
          if_neg hfacts.2.2.2.1, if_neg hfacts.2.2.2.2.1, if_neg hfacts.2.2.2.2.2,
          show c :: (cs ++ rest) = intRepr n ++ rest by rw [hrep]; rfl,
          parseNumLit_intRepr n rest hrest]
      | str s =>
        rw [show stringify (.str s) ++ rest = '"' :: (escapeStr s ++ '"' :: rest) by
          rw [stringify]; simp]
        simp [parseValue, parseStringBody_escape s rest]
      | arr xs =>
        cases xs with
        | nil =>
          rw [show stringify (.arr .nil) ++ rest = '[' :: ']' :: rest from by
            rw [stringify]; rfl, parseValue, if_neg (by decide), if_neg (by decide),
            if_neg (by decide), if_neg (by decide), if_pos rfl,
            skipWs_cons_of_not_ws ']' rest (by decide)]
          rfl
        | cons x xs2 =>
          have hfv2 : jsonFuel x + itemsFuel xs2 ≤ f := by
            rw [jsonFuel, itemsFuel] at hfv
            omega
          rw [show stringify (.arr (.cons x xs2)) ++ rest =
              '[' :: (stringify x ++ (stringifyItems xs2 ++ ']' :: rest)) by
            rw [stringify]; simp,
            parseValue, if_neg (by decide), if_neg (by decide), if_neg (by decide),
            if_neg (by decide), if_pos rfl, skipWs_of_headOk _ _ (stringify_headOk x)]
          obtain ⟨c2, cs2, hsx⟩ : ∃ c2 cs2, stringify x = c2 :: cs2 := by
            cases hx : stringify x with
            | nil => exact absurd (hx ▸ stringify_headOk x) (by simp [headOk])
            | cons a b => exact ⟨a, b, rfl⟩
          have hok := stringify_headOk x
          rw [hsx] at hok
          rw [show stringify x ++ (stringifyItems xs2 ++ ']' :: rest) =
              c2 :: (cs2 ++ (stringifyItems xs2 ++ ']' :: rest)) by rw [hsx]; rfl]
          dsimp only
          rw [if_neg hok.2,
            show c2 :: (cs2 ++ (stringifyItems xs2 ++ ']' :: rest)) =
              stringify x ++ (stringifyItems xs2 ++ ']' :: rest) by rw [hsx]; rfl,
            ih2 x xs2 rest hfv2]
          rfl
      | obj ms =>
        cases ms with
        | nil =>
          rw [show stringify (.obj .nil) ++ rest = lbrace :: rbrace :: rest from by
            rw [stringify]; rfl, parseValue, if_neg (by decide), if_neg (by decide),
            if_neg (by decide), if_neg (by decide), if_neg (by decide), if_pos rfl,
            skipWs_cons_of_not_ws rbrace rest (by decide)]
          rfl
        | cons k v ms2 =>
          have hfv2 : jsonFuel v + membersFuel ms2 ≤ f := by
            rw [jsonFuel, membersFuel] at hfv
            omega
          rw [show stringify (.obj (.cons k v ms2)) ++ rest =
              lbrace :: ('"' :: (escapeStr k ++ '"' :: ':' :: (stringify v ++
                (stringifyMembers ms2 ++ rbrace :: rest)))) by
            rw [stringify]; simp,
            parseValue, if_neg (by decide), if_neg (by decide), if_neg (by decide),
            if_neg (by decide), if_neg (by decide), if_pos rfl,
            skipWs_cons_of_not_ws '"' _ (by decide)]
          dsimp only
          rw [if_neg (by decide), ih3 k v ms2 rest hfv2]
          rfl
    · intro x xs rest hf2
      have hfx : jsonFuel x ≤ f := by
        have := itemsFuel_pos xs
        omega
      have hrest2 : headIsDigit (stringifyItems xs ++ ']' :: rest) = false := by
        cases xs with
        | nil =>
          rw [show stringifyItems JsonItems.nil ++ ']' :: rest = ']' :: rest from rfl,
            headIsDigit]
          decide
        | cons x2 xs2 =>
          rw [show stringifyItems (JsonItems.cons x2 xs2) ++ ']' :: rest =
            ',' :: (stringify x2 ++ stringifyItems xs2 ++ ']' :: rest) from by
              rw [stringifyItems]; simp, headIsDigit]
          decide
      rw [parseItems, skipWs_of_headOk _ _ (stringify_headOk x), ih1 x _ hfx hrest2]
      dsimp only
      cases xs with
      | nil =>
        rw [show stringifyItems .nil ++ ']' :: rest = ']' :: rest from rfl,
          skipWs_cons_of_not_ws ']' rest (by decide)]
        dsimp only
        rw [if_neg (by decide), if_pos rfl]
      | cons x2 xs2 =>
        have hf22 : jsonFuel x2 + itemsFuel xs2 ≤ f := by
          rw [itemsFuel] at hf2
          have := jsonFuel_pos x
          omega
        rw [show stringifyItems (.cons x2 xs2) ++ ']' :: rest =
            ',' :: (stringify x2 ++ (stringifyItems xs2 ++ ']' :: rest)) by
          rw [stringifyItems]; simp,
          skipWs_cons_of_not_ws ',' _ (by decide)]
        dsimp only
        rw [if_pos rfl, ih2 x2 xs2 rest hf22]
        rfl
    · intro k v ms rest hf3
      have hfv : jsonFuel v ≤ f := by
        have := membersFuel_pos ms
        omega
      have hrest3 : headIsDigit (stringifyMembers ms ++ rbrace :: rest) = false := by
        cases ms with
        | nil =>
          rw [show stringifyMembers JsonMembers.nil ++ rbrace :: rest = rbrace :: rest from rfl,
            headIsDigit]
          decide
        | cons k2 v2 ms2 =>
          rw [show stringifyMembers (JsonMembers.cons k2 v2 ms2) ++ rbrace :: rest =
            ',' :: (('"' :: escapeStr k2 ++ '"' :: ':' :: stringify v2) ++
              stringifyMembers ms2 ++ rbrace :: rest) from by
              rw [stringifyMembers]; simp, headIsDigit]
          decide
      rw [parseMembers, skipWs_cons_of_not_ws '"' _ (by decide)]
      dsimp only
      rw [if_pos rfl, parseStringBody_escape k
        (':' :: (stringify v ++ (stringifyMembers ms ++ rbrace :: rest)))]
      dsimp only
      rw [skipWs_cons_of_not_ws ':' _ (by decide)]
      dsimp only
      rw [if_pos rfl, skipWs_of_headOk _ _ (stringify_headOk v), ih1 v _ hfv hrest3]
      dsimp only
      cases ms with
      | nil =>
        rw [show stringifyMembers .nil ++ rbrace :: rest = rbrace :: rest from rfl,
          skipWs_cons_of_not_ws rbrace rest (by decide)]
        dsimp only
        rw [if_neg (by decide), if_pos rfl]
      | cons k2 v2 ms2 =>
        have hf32 : jsonFuel v2 + membersFuel ms2 ≤ f := by
          rw [membersFuel] at hf3
          have := jsonFuel_pos v
          omega
        rw [show stringifyMembers (.cons k2 v2 ms2) ++ rbrace :: rest =
            ',' :: ('"' :: (escapeStr k2 ++ '"' :: ':' :: (stringify v2 ++
              (stringifyMembers ms2 ++ rbrace :: rest)))) by
          rw [stringifyMembers]; simp,
          skipWs_cons_of_not_ws ',' _ (by decide)]
        dsimp only
        rw [if_pos rfl, ih3 k2 v2 ms2 rest hf32]
        rfl

mutual
theorem jsonFuel_le (v : Json) : jsonFuel v ≤ (stringify v).length := by
  cases v with
  | null => decide
  | bool b => cases b <;> decide
  | num n =>
    obtain ⟨c, cs, hrep, _⟩ := intRepr_head n
    rw [jsonFuel, stringify, hrep]
    simp
  | str s =>
    rw [jsonFuel, stringify]
    simp
  | arr xs =>
    cases xs with
    | nil => decide
    | cons x xs2 =>
      have h1 := jsonFuel_le x
      have h2 := itemsFuel_le xs2
      rw [jsonFuel, itemsFuel, stringify]
      simp only [List.length_cons, List.length_append]
      omega
  | obj ms =>
    cases ms with
    | nil => decide
    | cons k v ms2 =>
      have h1 := jsonFuel_le v
      have h2 := membersFuel_le ms2
      rw [jsonFuel, membersFuel, stringify]
      simp only [List.length_cons, List.length_append]
      omega

theorem itemsFuel_le (xs : JsonItems) : itemsFuel xs ≤ (stringifyItems xs).length + 1 := by
  cases xs with
  | nil => decide
  | cons x xs2 =>
    have h1 := jsonFuel_le x
    have h2 := itemsFuel_le xs2
    rw [itemsFuel, stringifyItems]
    simp only [List.length_cons, List.length_append]
    omega

theorem membersFuel_le (ms : JsonMembers) : membersFuel ms ≤ (stringifyMembers ms).length + 1 := by
  cases ms with
  | nil => decide
  | cons k v ms2 =>
    have h1 := jsonFuel_le v
    have h2 := membersFuel_le ms2
    rw [membersFuel, stringifyMembers]
    simp only [List.length_cons, List.length_append]
    omega
end

/-- The modelled `JSON.parse` inverts `JSON.stringify` on the modelled value space. -/
theorem jsonParse_stringify (v : Json) : jsonParse (stringify v) = some v := by
  have hskip : skipWs (stringify v) = stringify v := by
    have h := skipWs_of_headOk (stringify v) [] (stringify_headOk v)
    simpa using h
  have h1 := (parse_stringify_all ((stringify v).length + 1)).1 v []
    (by have := jsonFuel_le v; omega) rfl
  rw [List.append_nil] at h1
  rw [jsonParse, hskip, h1]
  rfl

end JsModel

namespace SimpleHMAC

open JsModel NodeCrypto

theorem verifyWithTimestamp_shape (secret digest : List Char) (M : Json) (t now : Int)
    (hd : ':' ∉ digest) (hM : ':' ∉ stringify M) :
    verifyWithTimestamp secret (digest ++ ':' :: (intRepr t ++ ':' :: stringify M)) now =
      (if now - t > constants.MAX_TOKEN_AGE then
        { isValid := false, reason := "Token expired".toList, age := some (now - t),
          maxAge := some constants.MAX_TOKEN_AGE }
      else
        { isValid := verify secret (.str (dataToSignStr M (some t))) digest
          reason := if verify secret (.str (dataToSignStr M (some t))) digest
            then "Valid token".toList else "Invalid HMAC".toList
          data := if verify secret (.str (dataToSignStr M (some t))) digest
            then some M else none
          age := some (now - t) }) := by
  have hsplit : splitOn ':' (digest ++ ':' :: (intRepr t ++ ':' :: stringify M)) =
      [digest, intRepr t, stringify M] := by
    rw [splitOn_three ':' digest (intRepr t) (stringify M) hd (intRepr_noColon t),
      splitOn_noSep ':' (stringify M) hM]
  rw [verifyWithTimestamp, hsplit]
  simp only [List.headD, List.getElem?_cons_succ, List.getElem?_cons_zero, jsParseIntOpt,
    jsParseIntStr_intRepr, jsonParseThrow, jsonParse_stringify, Option.map]
  by_cases hgt : now - t > constants.MAX_TOKEN_AGE
  · rw [if_pos (by simpa [jsGtNum] using hgt), if_pos hgt]
  · rw [if_neg (by simpa [jsGtNum] using hgt), if_neg hgt]

end SimpleHMAC

namespace SimpleHMAC

open JsModel NodeCrypto

theorem createWithTimestamp_fullToken (secret : List Char) (M : Json) (t : Int) :
    (createWithTimestamp secret M t).fullToken =
      create secret (.str (dataToSignStr M (some t))) ++ ':' :: (intRepr t ++ ':' :: stringify M) :=
  rfl

/-- Appending hex-undecodable junk to a fresh digest still verifies, because
Node's hex decoding stops at the first invalid pair. -/
theorem verify_create_append (secret : List Char) (m : JsMsg) (junk : List Char)
    (hjunk : hexDecodeNode junk = []) :
    verify secret m (create secret m ++ junk) = true := by
  rw [verify]
  have h1 : hexDecodeNode (create secret m ++ junk) = hexDecodeNode (create secret m) := by
    rw [create, hexDecodeNode_hexEncode_append _ _ (hmacSha256_lt _ _), hjunk, List.append_nil,
      hexDecodeNode_hexEncode _ (hmacSha256_lt _ _)]
  rw [h1, timingSafeEqual, if_pos rfl]
  simp [(ctScan_fst_eq_zero_iff _ _ rfl).mpr rfl]

/-- The malformed-token branch of `verifyWithTimestamp`: when the third `:`
part is missing or fails `JSON.parse`, the thrown error is caught and surfaced
as an `Invalid token format: ...` result. -/
theorem verifyWithTimestamp_malformed (secret fullToken : List Char) (nowMs : Int)
    (h : (splitOn ':' fullToken)[2]? = none ∨
      ∃ s, (splitOn ':' fullToken)[2]? = some s ∧ jsonParse s = none) :
    (verifyWithTimestamp secret fullToken nowMs).isValid = false ∧
    "Invalid token format".toList <+: (verifyWithTimestamp secret fullToken nowMs).reason := by
  rw [verifyWithTimestamp]
  rcases h with h | ⟨s, hs, hp⟩
  · rw [h, show jsonParseThrow (none : Option (List Char)) =
      Except.error "Unexpected token".toList from rfl]
    dsimp only
    exact ⟨rfl, ⟨": Unexpected token".toList, by decide⟩⟩
  · rw [hs, jsonParseThrow, hp]
    dsimp only
    exact ⟨rfl, ⟨": Unexpected token".toList, by decide⟩⟩

end SimpleHMAC

theorem jsFalsyOptStr_some_ne (l : List Char) (h : l ≠ []) :
    JsModel.jsFalsyOptStr (some l) = false := by
  cases l with
  | nil => exact absurd rfl h
  | cons c r => rfl

/-- The middleware result once both headers are present and nonempty. -/
theorem hmacAuth_eq (secret : List Char) (req : Req) (nowMs : Int) (ts sg : List Char)
    (hts : req.tsHeader = some ts) (hsg : req.sigHeader = some sg)
    (htne : ts ≠ []) (hsne : sg ≠ []) :
    hmacAuth secret req nowMs =
      (if JsModel.jsGtNum ((JsModel.jsParseIntStr ts).map (fun t => |nowMs - t|))
          constants.MAX_TOKEN_AGE
       then
         (if dateRangeOk ((JsModel.jsParseIntStr ts).getD 0) && dateRangeOk nowMs
          then .expired ((JsModel.jsParseIntStr ts).map (fun t => |nowMs - t|))
          else .authError)
       else if SimpleHMAC.verify secret
          (.str (security.createStringToSign req.method req.path req.body ts)) sg
       then .ok else .invalidSignature) := by
  rw [hmacAuth, hts, hsg, jsFalsyOptStr_some_ne ts htne, jsFalsyOptStr_some_ne sg hsne]
  simp only [Bool.or_self, Bool.false_eq_true, if_false, Option.getD_some, JsModel.jsParseIntOpt]


/-- C1 (counterexample): for the message `{"a": 1}` the serialized JSON
contains `:`, the token splits into four parts, `JSON.parse` fails on the
truncated third part, and immediate verification returns a malformed-token
failure instead of the round-tripped message. -/
theorem C1_counterexample :
    ¬ ((SimpleHMAC.verifyWithTimestamp cexSecret
          ((SimpleHMAC.createWithTimestamp cexSecret cexMsgC1 0).fullToken) 0).isValid = true ∧
       (SimpleHMAC.verifyWithTimestamp cexSecret
          ((SimpleHMAC.createWithTimestamp cexSecret cexMsgC1 0).fullToken) 0).data =
         some cexMsgC1) := by
  rintro ⟨h1, _⟩
  have hsplit : JsModel.splitOn ':'
      ((SimpleHMAC.createWithTimestamp cexSecret cexMsgC1 0).fullToken) =
      [SimpleHMAC.create cexSecret (.str (SimpleHMAC.dataToSignStr cexMsgC1 (some 0))),
       ['0'], [JsModel.lbrace, '"', 'a', '"'], ['1', JsModel.rbrace]] := by
    rw [SimpleHMAC.createWithTimestamp_fullToken,
      show JsModel.intRepr 0 ++ ':' :: JsModel.stringify cexMsgC1 =
        ['0'] ++ ':' :: ([JsModel.lbrace, '"', 'a', '"'] ++ ':' :: ['1', JsModel.rbrace])
        from by decide,
      JsModel.splitOn_append ':' _ _ (SimpleHMAC.create_noColon _ _),
      JsModel.splitOn_append ':' ['0'] _ (by decide),
      JsModel.splitOn_append ':' [JsModel.lbrace, '"', 'a', '"'] _ (by decide),
      JsModel.splitOn_noSep ':' ['1', JsModel.rbrace] (by decide)]
  have hmal := SimpleHMAC.verifyWithTimestamp_malformed cexSecret
    ((SimpleHMAC.createWithTimestamp cexSecret cexMsgC1 0).fullToken) 0
    (Or.inr ⟨[JsModel.lbrace, '"', 'a', '"'], by rw [hsplit]; rfl, by decide⟩)
  rw [hmal.1] at h1
  exact absurd h1 (by simp)

/-- C1 (amended): when `JSON.stringify(M)` contains no `:` character, building
a token and verifying it while `now - t ≤ maxTokenAge` yields `isValid = true`
and returns the original message. -/
theorem C1_roundtrip (secret : List Char) (M : JsModel.Json) (t now : Int)
    (hM : ':' ∉ JsModel.stringify M) (hage : now - t ≤ constants.MAX_TOKEN_AGE) :
    (SimpleHMAC.verifyWithTimestamp secret
        ((SimpleHMAC.createWithTimestamp secret M t).fullToken) now).isValid = true ∧
    (SimpleHMAC.verifyWithTimestamp secret
        ((SimpleHMAC.createWithTimestamp secret M t).fullToken) now).data = some M := by
  rw [SimpleHMAC.createWithTimestamp_fullToken,
    SimpleHMAC.verifyWithTimestamp_shape secret _ M t now (SimpleHMAC.create_noColon _ _) hM,
    if_neg (by omega)]
  simp [SimpleHMAC.verify_create]

/-- C1 witness: the colon-free message `"hi"` round-trips at age 0. -/
theorem C1_witness :
    (':' ∉ JsModel.stringify (.str ['h', 'i'])) ∧
    ((0 : Int) - 0 ≤ constants.MAX_TOKEN_AGE) ∧
    ((SimpleHMAC.verifyWithTimestamp cexSecret
        ((SimpleHMAC.createWithTimestamp cexSecret (.str ['h', 'i']) 0).fullToken) 0).isValid =
        true ∧
     (SimpleHMAC.verifyWithTimestamp cexSecret
        ((SimpleHMAC.createWithTimestamp cexSecret (.str ['h', 'i']) 0).fullToken) 0).data =
        some (.str ['h', 'i'])) :=
  ⟨by decide, by decide, C1_roundtrip cexSecret (.str ['h', 'i']) 0 0 (by decide) (by decide)⟩

/-- C2 (counterexample): a present but non-numeric timestamp header does not
produce a distinct malformed-timestamp rejection: the middleware falls through
to signature verification and answers `InvalidSignature`. -/
theorem C2_counterexample : hmacAuth cexSecret reqC2 0 = AuthOutcome.invalidSignature := by
  have h := hmacAuth_eq cexSecret reqC2 0 "abc".toList "00".toList rfl rfl (by decide) (by decide)
  rw [show JsModel.jsParseIntStr "abc".toList = none from by decide] at h
  simp only [Option.map] at h
  rw [h, if_neg (by decide)]
  have hv : SimpleHMAC.verify cexSecret
      (.str (security.createStringToSign reqC2.method reqC2.path reqC2.body "abc".toList))
      "00".toList = false := by
    apply SimpleHMAC.verify_eq_false_of_decode_ne
    intro heq
    have hl := congrArg List.length heq
    rw [SimpleHMAC.hexDecode_create_length,
      show NodeCrypto.hexDecodeNode "00".toList = [0] from by decide] at hl
    simp at hl
  have hv2 : SimpleHMAC.verify cexSecret
      (.str (security.createStringToSign reqC2.method reqC2.path reqC2.body ['a', 'b', 'c']))
      ['0', '0'] = false := hv
  rw [if_neg (by simp [hv2])]

/-- C2 (amended): with both headers present and nonempty and a timestamp that
`parseInt` cannot parse, the NaN comparison skips the expiry check and the
request proceeds to signature verification over the raw header string; the
middleware answers `ok` or `InvalidSignature` accordingly and never reaches the
catch branch. -/
theorem C2_nan_timestamp (secret : List Char) (req : Req) (now : Int) (ts sg : List Char)
    (hts : req.tsHeader = some ts) (hsg : req.sigHeader = some sg)
    (htne : ts ≠ []) (hsne : sg ≠ []) (hnan : JsModel.jsParseIntStr ts = none) :
    hmacAuth secret req now =
      (if SimpleHMAC.verify secret
          (.str (security.createStringToSign req.method req.path req.body ts)) sg
       then .ok else .invalidSignature) ∧
    hmacAuth secret req now ≠ AuthOutcome.authError := by
  have h := hmacAuth_eq secret req now ts sg hts hsg htne hsne
  rw [hnan] at h
  simp only [Option.map] at h
  rw [show JsModel.jsGtNum none constants.MAX_TOKEN_AGE = false from rfl] at h
  simp only [Bool.false_eq_true, if_false] at h
  refine ⟨h, ?_⟩
  rw [h]
  split <;> simp

/-- C2 witness: concrete request with timestamp header `"abc"`. -/
theorem C2_witness :
    (reqC2.tsHeader = some "abc".toList) ∧ (reqC2.sigHeader = some "00".toList) ∧
    ("abc".toList ≠ []) ∧ ("00".toList ≠ []) ∧
    (JsModel.jsParseIntStr "abc".toList = none) ∧
    (hmacAuth cexSecret reqC2 0 =
      (if SimpleHMAC.verify cexSecret
          (.str (security.createStringToSign reqC2.method reqC2.path reqC2.body "abc".toList))
          "00".toList
       then .ok else .invalidSignature) ∧
     hmacAuth cexSecret reqC2 0 ≠ AuthOutcome.authError) :=
  ⟨rfl, rfl, by decide, by decide, by decide,
    C2_nan_timestamp cexSecret reqC2 0 "abc".toList "00".toList rfl rfl (by decide) (by decide)
      (by decide)⟩

/-- C3 (counterexample): on `"deadbeef:xyz:42"` the timestamp part is not an
integer, yet the result is `Invalid HMAC`, not the claimed
`Invalid token format` classification. -/
theorem C3_counterexample :
    SimpleHMAC.verifyWithTimestamp cexSecret cexTokenC3 0 =
      { isValid := false, reason := "Invalid HMAC".toList, data := none, age := none,
        maxAge := none } ∧
    ¬ ("Invalid token format".toList <+:
        (SimpleHMAC.verifyWithTimestamp cexSecret cexTokenC3 0).reason) := by
  have hv : SimpleHMAC.verify cexSecret
      (.str (SimpleHMAC.dataToSignStr (.num 42) none)) "deadbeef".toList = false := by
    apply SimpleHMAC.verify_eq_false_of_decode_ne
    intro heq
    have hl := congrArg List.length heq
    rw [SimpleHMAC.hexDecode_create_length,
      show NodeCrypto.hexDecodeNode "deadbeef".toList = [0xde, 0xad, 0xbe, 0xef] from by decide]
      at hl
    simp at hl
  have hres : SimpleHMAC.verifyWithTimestamp cexSecret cexTokenC3 0 =
      { isValid := false, reason := "Invalid HMAC".toList, data := none, age := none,
        maxAge := none } := by
    rw [SimpleHMAC.verifyWithTimestamp,
      show JsModel.splitOn ':' cexTokenC3 =
        ["deadbeef".toList, "xyz".toList, "42".toList] from by decide]
    simp only [List.headD, List.getElem?_cons_succ, List.getElem?_cons_zero]
    rw [show JsModel.jsParseIntOpt (some "xyz".toList) = none from by decide,
      SimpleHMAC.jsonParseThrow,
      show JsModel.jsonParse "42".toList = some (.num 42) from by decide]
    dsimp only
    simp only [Option.map]
    rw [if_neg (by decide), hv]
    simp [hv]
  exact ⟨hres, by rw [hres]; decide⟩

/-- C3 (amended): if the token has fewer than three `:`-parts, or its message
part is not valid JSON, the result is `isValid = false` with an
`Invalid token format` reason; a non-integer timestamp alone does not produce
this classification.  The invalid-JSON case is stated for message parts
containing none of `.`, `e`, `E`: on those the model's integer-numeral
`jsonParse` rejects exactly the strings the full JSON grammar rejects, while
fractional and exponent numerals lie outside the modelled value space. -/
theorem C3_malformed_token (secret fullToken : List Char) (now : Int)
    (h : (JsModel.splitOn ':' fullToken)[2]? = none ∨
      ∃ s, (JsModel.splitOn ':' fullToken)[2]? = some s ∧ JsModel.jsonParse s = none ∧
        '.' ∉ s ∧ 'e' ∉ s ∧ 'E' ∉ s) :
    (SimpleHMAC.verifyWithTimestamp secret fullToken now).isValid = false ∧
    "Invalid token format".toList <+:
      (SimpleHMAC.verifyWithTimestamp secret fullToken now).reason := by
  apply SimpleHMAC.verifyWithTimestamp_malformed secret fullToken now
  rcases h with h | ⟨s, hs, hp, _, _, _⟩
  · exact Or.inl h
  · exact Or.inr ⟨s, hs, hp⟩

/-- C3 witness: the one-part token `"ab"`. -/
theorem C3_witness :
    ((JsModel.splitOn ':' ['a', 'b'])[2]? = none ∨
      ∃ s, (JsModel.splitOn ':' ['a', 'b'])[2]? = some s ∧ JsModel.jsonParse s = none ∧
        '.' ∉ s ∧ 'e' ∉ s ∧ 'E' ∉ s) ∧
    ((SimpleHMAC.verifyWithTimestamp cexSecret ['a', 'b'] 0).isValid = false ∧
     "Invalid token format".toList <+:
       (SimpleHMAC.verifyWithTimestamp cexSecret ['a', 'b'] 0).reason) :=
  ⟨Or.inl (by decide), C3_malformed_token cexSecret ['a', 'b'] 0 (Or.inl (by decide))⟩

/-- C4: an over-age token with this shape is rejected as expired (whatever the
digest part is, including a valid one); age exactly `maxTokenAge` is not
expired, and `maxTokenAge + 1` is. -/
theorem C4_expiry (secret digest : List Char) (M : JsModel.Json) (t now : Int)
    (hd : ':' ∉ digest) (hM : ':' ∉ JsModel.stringify M) :
    (now - t > constants.MAX_TOKEN_AGE →
      SimpleHMAC.verifyWithTimestamp secret
          (digest ++ ':' :: (JsModel.intRepr t ++ ':' :: JsModel.stringify M)) now =
        { isValid := false, reason := "Token expired".toList, age := some (now - t),
          maxAge := some constants.MAX_TOKEN_AGE }) ∧
    (now - t = constants.MAX_TOKEN_AGE →
      (SimpleHMAC.verifyWithTimestamp secret
          (digest ++ ':' :: (JsModel.intRepr t ++ ':' :: JsModel.stringify M)) now).reason ≠
        "Token expired".toList) ∧
    (now - t = constants.MAX_TOKEN_AGE + 1 →
      (SimpleHMAC.verifyWithTimestamp secret
          (digest ++ ':' :: (JsModel.intRepr t ++ ':' :: JsModel.stringify M)) now).reason =
        "Token expired".toList) := by
  rw [SimpleHMAC.verifyWithTimestamp_shape secret digest M t now hd hM]
  refine ⟨fun h => by rw [if_pos h], fun h => ?_, fun h => by rw [if_pos (by omega)]⟩
  rw [if_neg (by omega)]
  by_cases hv : SimpleHMAC.verify secret (.str (SimpleHMAC.dataToSignStr M (some t))) digest = true
  · simp [hv]
  · simp [hv]

/-- C4 witness: empty digest, message `1`, timestamp 0, verified at 300001 ms. -/
theorem C4_witness :
    (':' ∉ ([] : List Char)) ∧ (':' ∉ JsModel.stringify (.num 1)) ∧
    SimpleHMAC.verifyWithTimestamp cexSecret
        (([] : List Char) ++ ':' :: (JsModel.intRepr 0 ++ ':' :: JsModel.stringify (.num 1)))
        300001 =
      { isValid := false, reason := "Token expired".toList, age := some 300001,
        maxAge := some constants.MAX_TOKEN_AGE } :=
  ⟨by decide, by decide, by
    have h := (C4_expiry cexSecret [] (.num 1) 0 300001 (by decide) (by decide)).1 (by decide)
    simpa using h⟩

/-- C5: a digest freshly created from a message always verifies against the
same message under the same secret. -/
theorem C5_verify_create (secret : List Char) (m : SimpleHMAC.JsMsg) :
    SimpleHMAC.verify secret m (SimpleHMAC.create secret m) = true :=
  SimpleHMAC.verify_create secret m

/-- C6 (counterexample): appending `"zz"` to a valid digest gives a candidate
of wrong length (66) containing non-hex characters, yet `verify` returns
`true`, because Node hex decoding truncates at the first invalid pair. -/
theorem C6_counterexample :
    (SimpleHMAC.create cexSecret (.str ['m', 's', 'g']) ++ ['z', 'z']).length = 66 ∧
    JsModel.hexCharVal 'z' = none ∧
    SimpleHMAC.verify cexSecret (.str ['m', 's', 'g'])
      (SimpleHMAC.create cexSecret (.str ['m', 's', 'g']) ++ ['z', 'z']) = true := by
  refine ⟨?_, by decide, SimpleHMAC.verify_create_append cexSecret _ ['z', 'z'] (by decide)⟩
  rw [List.length_append, SimpleHMAC.create_length]
  rfl

/-- C6 (amended): whenever the candidate's truncated hex decoding differs from
the digest's 32 bytes — in particular any valid-hex candidate of wrong length
and any candidate decoding to fewer bytes — `verify` returns `false` (a thrown
length mismatch is caught) rather than raising. -/
theorem C6_decode_mismatch (secret : List Char) (m : SimpleHMAC.JsMsg) (cand : List Char)
    (h : NodeCrypto.hexDecodeNode cand ≠ NodeCrypto.hexDecodeNode (SimpleHMAC.create secret m)) :
    SimpleHMAC.verify secret m cand = false :=
  SimpleHMAC.verify_eq_false_of_decode_ne secret m cand h

/-- C6 witness: the two-character candidate `"00"` decodes to one byte. -/
theorem C6_witness :
    (NodeCrypto.hexDecodeNode ['0', '0'] ≠
      NodeCrypto.hexDecodeNode (SimpleHMAC.create cexSecret (.str ['m']))) ∧
    SimpleHMAC.verify cexSecret (.str ['m']) ['0', '0'] = false := by
  have hne : NodeCrypto.hexDecodeNode ['0', '0'] ≠
      NodeCrypto.hexDecodeNode (SimpleHMAC.create cexSecret (.str ['m'])) := by
    intro heq
    have hl := congrArg List.length heq
    rw [SimpleHMAC.hexDecode_create_length,
      show NodeCrypto.hexDecodeNode ['0', '0'] = [0] from by decide] at hl
    simp at hl
  exact ⟨hne, C6_decode_mismatch cexSecret (.str ['m']) ['0', '0'] hne⟩

/-- C7 (counterexample): a timestamp header of `8640000000000001`, one past the
largest ECMAScript time value, makes `|now - t|` exceed `maxTokenAge`, yet the
middleware does not answer `Expired`: the 401 body's
`new Date(requestTime).toISOString()` throws a `RangeError`, the surrounding
`catch` fires, and the response is the 500 `authError`. -/
theorem C7_counterexample :
    hmacAuth cexSecret reqC7big 0 = AuthOutcome.authError ∧
    hmacAuth cexSecret reqC7big 0 ≠ .expired (some 8640000000000001) := by
  have h := hmacAuth_eq cexSecret reqC7big 0 "8640000000000001".toList "ff".toList
    rfl rfl (by decide) (by decide)
  rw [show JsModel.jsParseIntStr "8640000000000001".toList = some 8640000000000001
      from by decide] at h
  simp only [Option.map, Option.getD_some] at h
  rw [h, if_pos (by decide), if_neg (by decide)]
  exact ⟨rfl, by decide⟩

/-- C7 (amended): with both headers present, a parseable timestamp, and both
the parsed timestamp and the current time inside the ECMAScript `Date` range
(absolute value at most `8.64e15` ms), a request whose absolute clock
difference exceeds `maxTokenAge` is rejected as expired, in either direction
of skew.  Outside that range the 401 body's `toISOString` throws and the
middleware instead answers the 500 error response. -/
theorem C7_abs_expiry (secret : List Char) (req : Req) (now t : Int) (ts sg : List Char)
    (hts : req.tsHeader = some ts) (hsg : req.sigHeader = some sg)
    (htne : ts ≠ []) (hsne : sg ≠ []) (hp : JsModel.jsParseIntStr ts = some t)
    (hdiff : |now - t| > constants.MAX_TOKEN_AGE)
    (hrt : dateRangeOk t = true) (hrn : dateRangeOk now = true) :
    hmacAuth secret req now = .expired (some |now - t|) := by
  have h := hmacAuth_eq secret req now ts sg hts hsg htne hsne
  rw [hp] at h
  simp only [Option.map, Option.getD_some] at h
  rw [h, if_pos (by simpa [JsModel.jsGtNum] using hdiff), if_pos (by simp [hrt, hrn])]

/-- C7 witness: a request timestamped at 0 verified at 300001 ms. -/
theorem C7_witness :
    (reqC7.tsHeader = some ['0']) ∧ (reqC7.sigHeader = some "ff".toList) ∧
    (JsModel.jsParseIntStr ['0'] = some 0) ∧
    (|(300001 : Int) - 0| > constants.MAX_TOKEN_AGE) ∧
    (dateRangeOk 0 = true) ∧ (dateRangeOk 300001 = true) ∧
    hmacAuth cexSecret reqC7 300001 = .expired (some |(300001 : Int) - 0|) :=
  ⟨rfl, rfl, by decide, by decide, by decide, by decide,
    C7_abs_expiry cexSecret reqC7 300001 0 ['0'] "ff".toList rfl rfl (by decide) (by decide)
      (by decide) (by decide) (by decide) (by decide)⟩

/-- C8 (counterexample): the falsy body `false` is also replaced by `{}`,
diverging from the claim's `json(body)` for non-null bodies. -/
theorem C8_counterexample :
    security.createStringToSign "get".toList "/p".toList (some (.bool false)) ['1'] ≠
      specStringToSign "get".toList "/p".toList (some (.bool false)) ['1'] ∧
    security.createStringToSign "get".toList "/p".toList (some (.bool false)) ['1'] =
      "1.GET./p.".toList ++ [JsModel.lbrace, JsModel.rbrace] := by
  constructor
  · decide
  · decide

/-- C8 (amended): for an absent, `null`, or truthy body the string-to-sign is
exactly `{timestamp}.{UPPERCASE method}.{path}.{json(body or {})}` as the
specification words it; other falsy bodies (`false`, `0`, `""`) are also
replaced by `{}`. -/
theorem C8_stringToSign (method path : List Char) (body : Option JsModel.Json) (ts : List Char)
    (h : bodyOkForSpec body = true) :
    security.createStringToSign method path body ts = specStringToSign method path body ts := by
  cases body with
  | none => rfl
  | some j =>
    rw [bodyOkForSpec] at h
    have h2 : JsModel.jsTruthy j = true ∨ j = JsModel.Json.null := by
      rcases (Bool.or_eq_true _ _).mp h with ht | hd
      · exact Or.inl ht
      · exact Or.inr (of_decide_eq_true hd)
    rcases h2 with ht | rfl
    · have hne : j ≠ JsModel.Json.null := by
        rintro rfl
        simp [JsModel.jsTruthy] at ht
      rw [security.createStringToSign, specStringToSign]
      simp only [JsModel.jsOrElse, ht, if_true, if_neg hne]
    · rw [security.createStringToSign, specStringToSign]
      simp [JsModel.jsOrElse, JsModel.jsTruthy]

/-- C9: the byte comparison `verify` performs examines every position of
equal-length buffers: its step count depends only on the length, never on
where the first mismatch occurs. -/
theorem C9_constant_time (a b b' : List Nat)
    (h1 : b.length = a.length) (h2 : b'.length = a.length) :
    (NodeCrypto.ctScan a b).2 = (NodeCrypto.ctScan a b').2 ∧
    (NodeCrypto.ctScan a b).2 = a.length := by
  rw [NodeCrypto.ctScan_snd, NodeCrypto.ctScan_snd]
  omega

/-- C9 witness: mismatch at the second byte versus mismatch at the first. -/
theorem C9_witness :
    (([1, 3] : List Nat).length = ([1, 2] : List Nat).length) ∧
    (([9, 9] : List Nat).length = ([1, 2] : List Nat).length) ∧
    ((NodeCrypto.ctScan [1, 2] [1, 3]).2 = (NodeCrypto.ctScan [1, 2] [9, 9]).2 ∧
     (NodeCrypto.ctScan [1, 2] [1, 3]).2 = ([1, 2] : List Nat).length) :=
  ⟨by decide, by decide, C9_constant_time [1, 2] [1, 3] [9, 9] (by decide) (by decide)⟩

/-- C10: a non-string message and the string holding its JSON serialization
produce the same digest, and any candidate verifies for one exactly when it
verifies for the other. -/
theorem C10_create_json_eq_string (secret : List Char) (M : JsModel.Json) (d : List Char) :
    SimpleHMAC.create secret (.val M) = SimpleHMAC.create secret (.str (JsModel.stringify M)) ∧
    SimpleHMAC.verify secret (.val M) d =
      SimpleHMAC.verify secret (.str (JsModel.stringify M)) d :=
  ⟨rfl, rfl⟩

/-- C8 witness: a truthy body (`5`) is serialized as itself. -/
theorem C8_witness :
    (bodyOkForSpec (some (.num 5)) = true) ∧
    security.createStringToSign "get".toList "/p".toList (some (.num 5)) ['1'] =
      specStringToSign "get".toList "/p".toList (some (.num 5)) ['1'] :=
  ⟨by decide, C8_stringToSign "get".toList "/p".toList (some (.num 5)) ['1'] (by decide)⟩
